import Mathlib

/-!
Shallow embedding of the geange/automaton Go package (a port of Lucene's
automaton library) and verification of the frozen claims about it.

Conventions of the embedding:
* Go `int` (64-bit) is modelled as `Int`; unsigned 32/64-bit quantities are
  modelled as `Nat` with explicit `% 2^32` / `% 2^64` where Go wraps.
* Go slices of `int` are modelled as `List Int`; an out-of-range slice index,
  which panics in Go, is modelled with the error monad (`PErr.panic`).
* Go error returns are modelled as `PErr.err`; `Except` threads both.
* `bitset.BitSet` is modelled as `List Bool` (the library auto-extends on
  `SetTo` and reads past the end return `false`).
* Loops whose bound is not structural take an explicit fuel parameter; fuel
  exhaustion is the model-only error `GoErr.fuel`.
* `sort.Sort` is unstable, but every comparator in this code orders by all
  components of the compared records, so elements tied under the comparator
  are identical and the sorted contents are unique; an insertion sort by the
  same comparator therefore has exactly the contents Go computes.
-/

deriving instance DecidableEq for Except

/-- Runtime failures of the Go code: `panic` is a runtime panic (index out of
range), `err` is an error value returned by a function. -/
inductive PErr where
  | panic (msg : String)
  | err (msg : String)
deriving DecidableEq, Repr

/-- Failures of the determinizer/compiler layer: a lifted runtime failure, the
"too Complex To Determinize" error, model fuel exhaustion, and a marker for
branches outside the modelled fragment (never reached by any claim). -/
inductive GoErr where
  | p (e : PErr)
  | tooComplex
  | fuel
  | unmodelled
deriving DecidableEq, Repr

/-- Checked slice read: Go `l[i]`, panicking when out of range. -/
def listGet (l : List Int) (i : Int) : Except PErr Int :=
  if h : 0 ≤ i ∧ i.toNat < l.length then .ok (l.get ⟨i.toNat, h.2⟩)
  else .error (.panic "index out of range")

/-- Checked slice write: Go `l[i] = v`, panicking when out of range. -/
def listSet (l : List Int) (i : Int) (v : Int) : Except PErr (List Int) :=
  if 0 ≤ i ∧ i.toNat < l.length then .ok (l.set i.toNat v)
  else .error (.panic "index out of range")

/-- `grow` from slices.go: pad with zero values up to `size` elements. -/
def growSlice (l : List Int) (size : Nat) : List Int :=
  l ++ List.replicate (size - l.length) 0

/-- `bitset.Test` semantics: reads past the end (and the huge index produced
by a negative Go `int` cast to `uint`) return `false`. -/
def bitTest (l : List Bool) (i : Int) : Bool :=
  if i < 0 then false else l.getD i.toNat false

/-- `bitset.SetTo` semantics: the bit set auto-extends as needed.  A negative
index is never passed by the modelled code paths. -/
def bitSetTo (l : List Bool) (i : Int) (v : Bool) : List Bool :=
  if i < 0 then l
  else
    let n := i.toNat
    ((l ++ List.replicate (n + 1 - l.length) false).set n v)

/-- Insertion into a list sorted by `le` (used to realize `sort.Sort`;
see the header comment on why contents are unique). -/
def insertBy {α : Type} (le : α → α → Bool) : α → List α → List α
  | x, [] => [x]
  | x, y :: ys => if le x y then x :: y :: ys else y :: insertBy le x ys

/-- Insertion sort by `le`. -/
def sortBy {α : Type} (le : α → α → Bool) : List α → List α
  | [] => []
  | x :: xs => insertBy le x (sortBy le xs)

theorem insertBy_perm {α : Type} (le : α → α → Bool) (x : α) (l : List α) :
    (insertBy le x l).Perm (x :: l) := by
  induction l with
  | nil => simp [insertBy]
  | cons y ys ih =>
    simp only [insertBy]
    split
    · exact List.Perm.refl _
    · exact ((ih.cons y).trans (List.Perm.swap x y ys))

theorem sortBy_perm {α : Type} (le : α → α → Bool) (l : List α) :
    (sortBy le l).Perm l := by
  induction l with
  | nil => simp [sortBy]
  | cons x xs ih => exact (insertBy_perm le x (sortBy le xs)).trans (ih.cons x)

/-- `slices.Sort` on ints (ascending). -/
def sortInts (l : List Int) : List Int := sortBy (fun a b => a ≤ b) l

theorem sortInts_perm (l : List Int) : (sortInts l).Perm l := sortBy_perm _ l

/-- `mix32` from the source: the MurmurHash3 32-bit finalizer.  Go's
`uint32(v)` truncates to the low 32 bits (two's complement for negatives),
and the final `int(...)` conversion of a `uint32` is value-preserving, so the
result is a natural number below `2^32`. -/
def mix32 (v : Int) : Nat :=
  let k0 : Nat := (v % 4294967296).toNat
  let k1 : Nat := ((k0 ^^^ (k0 >>> 16)) * 0x85ebca6b) % 4294967296
  let k2 : Nat := ((k1 ^^^ (k1 >>> 13)) * 0xc2b2ae35) % 4294967296
  k2 ^^^ (k2 >>> 16)

/-- `mix` is an alias for `mix32` in the source. -/
def mix (v : Int) : Nat := mix32 v

/-- The packed automaton from the source: `states` holds, per state, a pair
(offset into `transitions`, transition count); `transitions` holds
(dest, min, max) triples flattened. -/
structure Automaton where
  nextTransition : Nat
  curState : Int
  states : List Int
  isAccept : List Bool
  transitions : List Int
  deterministic : Bool
deriving DecidableEq, Repr

/-- `NewAutomaton` (capacity arguments only preallocate in Go). -/
def newAutomaton : Automaton :=
  { nextTransition := 0, curState := -1, states := [], isAccept := [],
    transitions := [], deterministic := true }

/-- `Automaton.CreateState`.  The source returns `len(a.states)` — the raw
flat-array length (2k for the k-th call) — rather than the dense id `k`. -/
def Automaton.createState (a : Automaton) : Automaton × Int :=
  ({ a with states := a.states ++ [-1, 0] }, (a.states.length : Int))

/-- `Automaton.SetAccept`. -/
def Automaton.SetAccept (a : Automaton) (state : Int) (accept : Bool) : Automaton :=
  { a with isAccept := bitSetTo a.isAccept state accept }

/-- `Automaton.IsAccept`. -/
def Automaton.IsAccept (a : Automaton) (state : Int) : Bool :=
  bitTest a.isAccept state

/-- `Automaton.GetNumStates`. -/
def Automaton.GetNumStates (a : Automaton) : Nat :=
  a.states.length / 2

/-- `Automaton.growTransitions`. -/
def Automaton.growTransitions (a : Automaton) : Automaton :=
  if a.transitions.length < a.nextTransition + 3 then
    { a with transitions := growSlice a.transitions (a.nextTransition + 3) }
  else a

/-- Group a flat run of ints into (dest, min, max) triples. -/
def tripsOf : List Int → List (Int × Int × Int)
  | d :: mn :: mx :: rest => (d, mn, mx) :: tripsOf rest
  | _ => []

/-- Flatten (dest, min, max) triples back into the packed layout. -/
def flatTrips : List (Int × Int × Int) → List Int
  | [] => []
  | (d, mn, mx) :: rest => d :: mn :: mx :: flatTrips rest

/-- `destMinMaxSorter.Less`: by dest, then min, then max. -/
def destMinMaxLess (x y : Int × Int × Int) : Bool :=
  if x.1 < y.1 then true else if x.1 > y.1 then false
  else if x.2.1 < y.2.1 then true else if x.2.1 > y.2.1 then false
  else if x.2.2 < y.2.2 then true else false

/-- `minMaxDestSorter.Less`: by min, then max, then dest. -/
def minMaxDestLess (x y : Int × Int × Int) : Bool :=
  if x.2.1 < y.2.1 then true else if x.2.1 > y.2.1 then false
  else if x.2.2 < y.2.2 then true else if x.2.2 > y.2.2 then false
  else if x.1 < y.1 then true else false

/-- `sort.Sort` of the transition sorters in `finishCurrentState`.  Both
sorters receive a `from`/`to` window but their `Less`/`Swap` index the array
from element 0, so Go sorts the first `n` triples of the whole array (the
window offset is ignored — a faithful rendering of the source).  Accessing
beyond the array would panic. -/
def sortTriplesAbs (less : (Int × Int × Int) → (Int × Int × Int) → Bool)
    (n : Nat) (l : List Int) : Except PErr (List Int) :=
  if 3 * n ≤ l.length then
    .ok (flatTrips (sortBy (fun x y => !less y x) (tripsOf (l.take (3 * n)))) ++ l.drop (3 * n))
  else .error (.panic "index out of range")

/-- The `if dest != -1 { write the pending transition }` block of the
reduction loop in `finishCurrentState`. -/
def emitPending (offset : Int) (tr : List Int) (upto : Nat) (dest minV maxV : Int) :
    Except PErr (List Int × Nat) :=
  if dest = -1 then .ok (tr, upto)
  else do
    let tr ← listSet tr (offset + 3 * (upto : Int)) dest
    let tr ← listSet tr (offset + 3 * (upto : Int) + 1) minV
    let tr ← listSet tr (offset + 3 * (upto : Int) + 2) maxV
    .ok (tr, upto + 1)

/-- The reduction loop of `finishCurrentState`: merge adjacent transitions
sharing a dest whose ranges touch or overlap. -/
def mergeGo (offset : Int) : List Int → Nat → Nat → Nat → Int → Int → Int →
    Except PErr (List Int × Nat × Int × Int × Int)
  | tr, _, 0, upto, dest, minV, maxV => .ok (tr, upto, dest, minV, maxV)
  | tr, i, k + 1, upto, dest, minV, maxV => do
    let tDest ← listGet tr (offset + 3 * (i : Int))
    let tMin ← listGet tr (offset + 3 * (i : Int) + 1)
    let tMax ← listGet tr (offset + 3 * (i : Int) + 2)
    if dest = tDest then
      if tMin ≤ maxV + 1 then
        mergeGo offset tr (i + 1) k upto dest minV (if tMax > maxV then tMax else maxV)
      else do
        let (tr, upto) ← emitPending offset tr upto dest minV maxV
        mergeGo offset tr (i + 1) k upto dest tMin tMax
    else do
      let (tr, upto) ← emitPending offset tr upto dest minV maxV
      mergeGo offset tr (i + 1) k upto tDest tMin tMax

/-- The determinism re-check at the end of `finishCurrentState`: scan the
reduced transitions pairwise in stored order. -/
def detCheckGo (tr : List Int) (offset : Int) : Nat → Nat → Int → Except PErr Bool
  | 0, _, _ => .ok true
  | k + 1, i, lastMax => do
    let mn ← listGet tr (offset + 3 * (i : Int) + 1)
    if mn ≤ lastMax then .ok false
    else do
      let mx ← listGet tr (offset + 3 * (i : Int) + 2)
      detCheckGo tr offset k (i + 1) mx

/-- `Automaton.finishCurrentState`: sort by (dest,min,max), reduce, sort by
(min,max,dest), re-check determinism.  Both sorts act on the first `n`
triples of the whole array (see `sortTriplesAbs`). -/
def Automaton.finishCurrentState (a : Automaton) : Except PErr Automaton := do
  let numTI ← listGet a.states (2 * a.curState + 1)
  let offset ← listGet a.states (2 * a.curState)
  let numT := numTI.toNat
  let tr1 ← sortTriplesAbs destMinMaxLess numT a.transitions
  let (tr2, upto, dest, minV, maxV) ← mergeGo offset tr1 0 numT 0 (-1) (-1) (-1)
  let (tr3, upto) ← emitPending offset tr2 upto dest minV maxV
  let nextT := a.nextTransition - (numT - upto) * 3
  let sts ← listSet a.states (2 * a.curState + 1) (upto : Int)
  let tr4 ← sortTriplesAbs minMaxDestLess upto tr3
  let det ← (if a.deterministic ∧ upto > 1 then do
      let lastMax ← listGet tr4 (offset + 2)
      detCheckGo tr4 offset (upto - 1) 1 lastMax
    else .ok a.deterministic)
  .ok { a with transitions := tr4, states := sts, nextTransition := nextT,
               deterministic := det }

/-- The head of `Automaton.AddTransition`: grow the transition array and, on
a source change, finish the previous state and claim the new source's header
(failing when it was already claimed). -/
def Automaton.addTransSetup (a : Automaton) (source : Int) : Except PErr Automaton :=
  let a := a.growTransitions
  if a.curState ≠ source then do
    let a ← (if a.curState ≠ -1 then a.finishCurrentState else .ok a)
    let a := { a with curState := source }
    let v ← listGet a.states (2 * source)
    if v ≠ -1 then
      Except.error (.err "from state already had transitions added")
    else do
      let sts ← listSet a.states (2 * source) (a.nextTransition : Int)
      Except.ok { a with states := sts }
  else .ok a

/-- `Automaton.AddTransition`: the setup above, then the three packed writes
and the transition-count bump. -/
def Automaton.AddTransition (a : Automaton) (source dest minL maxL : Int) :
    Except PErr Automaton := do
  let a ← a.addTransSetup source
  let tr ← listSet a.transitions (a.nextTransition : Int) dest
  let tr ← listSet tr ((a.nextTransition : Int) + 1) minL
  let tr ← listSet tr ((a.nextTransition : Int) + 2) maxL
  let cnt ← listGet a.states (2 * a.curState + 1)
  let sts ← listSet a.states (2 * a.curState + 1) (cnt + 1)
  .ok { a with transitions := tr, states := sts, nextTransition := a.nextTransition + 3 }

/-- `Automaton.AddTransitionLabel`. -/
def Automaton.AddTransitionLabel (a : Automaton) (source dest label : Int) :
    Except PErr Automaton :=
  a.AddTransition source dest label label

/-- `Automaton.FinishState`. -/
def Automaton.FinishState (a : Automaton) : Except PErr Automaton :=
  if a.curState ≠ -1 then do
    let a ← a.finishCurrentState
    .ok { a with curState := -1 }
  else .ok a

/-- `Automaton.GetNumTransitionsWithState`. -/
def Automaton.GetNumTransitionsWithState (a : Automaton) (state : Int) :
    Except PErr Int := do
  let count ← listGet a.states (2 * state + 1)
  .ok (if count = -1 then 0 else count)

/-- `Automaton.getTransition`: the index'th transition leaving `state`. -/
def Automaton.getTransition (a : Automaton) (state idx : Int) :
    Except PErr (Int × Int × Int) := do
  let off ← listGet a.states (2 * state)
  let d ← listGet a.transitions (off + 3 * idx)
  let mn ← listGet a.transitions (off + 3 * idx + 1)
  let mx ← listGet a.transitions (off + 3 * idx + 2)
  .ok (d, mn, mx)

/-- Sequential reads performed by `GetNextTransition`. -/
def readTripsAt (l : List Int) : Int → Nat → Except PErr (List (Int × Int × Int))
  | _, 0 => .ok []
  | upto, k + 1 => do
    let d ← listGet l upto
    let mn ← listGet l (upto + 1)
    let mx ← listGet l (upto + 2)
    let rest ← readTripsAt l (upto + 3) k
    .ok ((d, mn, mx) :: rest)

/-- `InitTransition` followed by `count` calls of `GetNextTransition`:
the outgoing transitions of `state` in stored order. -/
def Automaton.transitionsOfState (a : Automaton) (state : Int) :
    Except PErr (List (Int × Int × Int)) := do
  let count ← a.GetNumTransitionsWithState state
  let upto ← listGet a.states (2 * state)
  readTripsAt a.transitions upto count.toNat

/-- The binary-search loop of `Automaton.next` (fuel-bounded; the fuel chosen
by `step` strictly exceeds the possible iteration count). -/
def Automaton.binSearch (a : Automaton) (firstTransitionIndex : Int) :
    Nat → Int → Int → Int → Except PErr Int
  | 0, _, _, _ => .error (.panic "binary search fuel")
  | f + 1, low, high, label =>
    if low ≤ high then do
      let mid := (low + high) / 2
      let ti := firstTransitionIndex + 3 * mid
      let minLabel ← listGet a.transitions (ti + 1)
      if minLabel > label then a.binSearch firstTransitionIndex f low (mid - 1) label
      else do
        let maxLabel ← listGet a.transitions (ti + 2)
        if maxLabel < label then a.binSearch firstTransitionIndex f (mid + 1) high label
        else listGet a.transitions ti
    else .ok (-1)

/-- `Automaton.Step` / `Automaton.next` with a nil output transition. -/
def Automaton.step (a : Automaton) (state label : Int) : Except PErr Int := do
  let firstTransitionIndex ← listGet a.states (2 * state)
  let numTransitions ← listGet a.states (2 * state + 1)
  a.binSearch firstTransitionIndex (numTransitions.toNat + 2) 0 (numTransitions - 1) label

/-- The loop of `Run` (operationsrun.go). -/
def runGo (a : Automaton) : List Int → Int → Except PErr Bool
  | [], state => .ok (a.IsAccept state)
  | c :: rest, state => do
    let nextState ← a.step state c
    if nextState = -1 then .ok false else runGo a rest nextState

/-- `Run`: execute the automaton on a code-point sequence from state 0. -/
def Run (a : Automaton) (s : List Int) : Except PErr Bool :=
  runGo a s 0

/-- `Automata.MakeEmpty` (the trailing `FinishState` is a no-op because
`curState` is `-1` on a fresh automaton). -/
def Automata.MakeEmpty : Automaton := newAutomaton

/-- `Automata.MakeCharRange`: note that `min > max` returns the empty
automaton with a nil error. -/
def Automata.MakeCharRange (mn mx : Int) : Except PErr Automaton :=
  if mn > mx then .ok Automata.MakeEmpty
  else do
    let (a, s1) := newAutomaton.createState
    let (a, s2) := a.createState
    let a := a.SetAccept s2 true
    let a ← a.AddTransition s1 s2 mn mx
    a.FinishState

/-- `Automata.MakeChar`. -/
def Automata.MakeChar (c : Int) : Except PErr Automaton :=
  Automata.MakeCharRange c c

/-- `Automata.MakeAnyString`. -/
def Automata.MakeAnyString : Except PErr Automaton := do
  let (a, s) := newAutomaton.createState
  let a := a.SetAccept s true
  let a ← a.AddTransition s s 0 1114111
  a.FinishState

/-- The per-character loop of `Automata.MakeString`. -/
def makeStringGo : List Int → Automaton → Int → Except PErr (Automaton × Int)
  | [], a, lastState => .ok (a, lastState)
  | v :: rest, a, lastState => do
    let (a, state) := a.createState
    let a ← a.AddTransitionLabel lastState state v
    makeStringGo rest a state

/-- `Automata.MakeString`: the literal-string automaton (input given as the
string's code points). -/
def Automata.MakeString (s : List Int) : Except PErr Automaton := do
  let (a, lastState) := newAutomaton.createState
  let (a, lastState) ← makeStringGo s a lastState
  let a := a.SetAccept lastState true
  a.FinishState

/-- `FrozenIntSet` (intset.go): a sorted element array, the DFA state it was
frozen for, and the cached hash. -/
structure FrozenIntSet where
  values : List Int
  state : Int
  hashCode : Nat
deriving DecidableEq, Repr

/-- `NewFrozenIntSet` with the intset.go parameter order
(values, hashCode, state) used by `determinize`. -/
def NewFrozenIntSet (values : List Int) (hashCode : Nat) (state : Int) : FrozenIntSet :=
  { values := values, state := state, hashCode := hashCode }

/-- `StateSet` (intset.go): a multiset of states as an association list
(state, occurrence count) plus the lazily cached hash. -/
structure StateSet where
  inner : List (Int × Int)
  hashUpdated : Bool
  hashCode : Nat
deriving DecidableEq, Repr

/-- `NewStateSet`. -/
def NewStateSet : StateSet :=
  { inner := [], hashUpdated := false, hashCode := 0 }

/-- The keys of the multiset in insertion order. -/
def StateSet.keys (s : StateSet) : List Int := s.inner.map Prod.fst

/-- Association-list lookup for the Go map backing `StateSet`. -/
def assocFind (l : List (Int × Int)) (k : Int) : Option Int :=
  match l.find? (fun e => e.1 = k) with
  | some e => some e.2
  | none => none

/-- Association-list update of an existing key. -/
def assocUpdate (l : List (Int × Int)) (k v : Int) : List (Int × Int) :=
  l.map (fun e => if e.1 = k then (k, v) else e)

/-- Association-list removal of a key. -/
def assocRemove (l : List (Int × Int)) (k : Int) : List (Int × Int) :=
  l.filter (fun e => !(e.1 = k))

/-- The hash value `StateSet.Hash` computes when the cache is stale: the
number of keys plus the sum of `mix` over the keys, in wrapping `uint64`
arithmetic. -/
def hashSpec (keys : List Int) : Nat :=
  (keys.length + (keys.map mix32).sum) % 18446744073709551616

/-- `StateSet.Hash`: return the cached value when fresh, otherwise recompute
and cache (the Go receiver is mutated, so the updated set is returned). -/
def StateSet.hash (s : StateSet) : Nat × StateSet :=
  if s.hashUpdated then (s.hashCode, s)
  else
    let h := hashSpec s.keys
    (h, { s with hashCode := h, hashUpdated := true })

/-- `StateSet.keyChanged` (intset.go): invalidate the cache. -/
def StateSet.keyChanged (s : StateSet) : StateSet :=
  { s with hashUpdated := false, hashCode := 0 }

/-- `StateSet.Incr`. -/
def StateSet.incr (s : StateSet) (state : Int) : StateSet :=
  match assocFind s.inner state with
  | some c =>
    let s := { s with inner := assocUpdate s.inner state (c + 1) }
    if c + 1 = 1 then s.keyChanged else s
  | none =>
    let s := { s with inner := s.inner ++ [(state, 1)] }
    s.keyChanged

/-- `StateSet.Decr`. -/
def StateSet.decr (s : StateSet) (state : Int) : StateSet :=
  match assocFind s.inner state with
  | none => s
  | some c =>
    if c = 1 then { s with inner := assocRemove s.inner state }.keyChanged
    else { s with inner := assocUpdate s.inner state (c - 1) }

/-- `StateSet.Size`. -/
def StateSet.size (s : StateSet) : Nat := s.inner.length

/-- `StateSet.GetArray`: the sorted key array. -/
def StateSet.getArray (s : StateSet) : List Int := sortInts s.keys

/-- `StateSet.Freeze`: snapshot the sorted support and the raw cached hash
field (not `Hash()`) into a `FrozenIntSet`. -/
def StateSet.freeze (s : StateSet) (state : Int) : FrozenIntSet :=
  NewFrozenIntSet s.getArray s.hashCode state

/-- The `Hashable` values that can appear as `other` in `Equals` calls:
the three `IntSet` implementations of intset.go. -/
inductive IntSetH where
  | frozen (f : FrozenIntSet)
  | stateSet (s : StateSet)
  | mock
deriving Repr

/-- `Hash()` of an `IntSet` value (for `StateSet` the cached-or-recomputed
value; the mutation is irrelevant to the result). -/
def IntSetH.hashOf : IntSetH → Nat
  | .frozen f => f.hashCode
  | .stateSet s => s.hash.1
  | .mock => 0

/-- `FrozenIntSet.Equals` (intset.go, non-nil receiver): every `other` here
implements `IntSet`, so the type switch falls through to comparing the two
`Hash()` values only — element arrays are not consulted. -/
def FrozenIntSet.equals (f : FrozenIntSet) (other : IntSetH) : Bool :=
  other.hashOf == f.hashCode

/-- The `Builder` (builder.go): unsorted (src, dest, min, max) quadruples,
an accept bit set, and a state counter. -/
structure Builder where
  nextState : Nat
  isAccept : List Bool
  transitions : List Int
deriving DecidableEq, Repr

/-- `NewBuilder`. -/
def NewBuilder : Builder :=
  { nextState := 0, isAccept := [], transitions := [] }

/-- `Builder.CreateState`. -/
def Builder.createState (b : Builder) : Builder × Nat :=
  ({ b with nextState := b.nextState + 1 }, b.nextState)

/-- `Builder.SetAccept`. -/
def Builder.SetAccept (b : Builder) (state : Int) (accept : Bool) : Builder :=
  { b with isAccept := bitSetTo b.isAccept state accept }

/-- `Builder.IsAccept`. -/
def Builder.IsAccept (b : Builder) (state : Int) : Bool :=
  bitTest b.isAccept state

/-- `Builder.AddTransition`: append the quadruple. -/
def Builder.AddTransition (b : Builder) (source dest minL maxL : Int) : Builder :=
  { b with transitions := b.transitions ++ [source, dest, minL, maxL] }

/-- `Builder.GetNumStates`. -/
def Builder.GetNumStates (b : Builder) : Nat := b.nextState

/-- Group the builder's flat transition array into quadruples. -/
def quadsOf : List Int → List (Int × Int × Int × Int)
  | s :: d :: mn :: mx :: rest => (s, d, mn, mx) :: quadsOf rest
  | _ => []

/-- `builderSorter.Less`: by source, dest, min, max. -/
def builderLess (x y : Int × Int × Int × Int) : Bool :=
  if x.1 < y.1 then true else if x.1 > y.1 then false
  else if x.2.1 < y.2.1 then true else if x.2.1 > y.2.1 then false
  else if x.2.2.1 < y.2.2.1 then true else if x.2.2.1 > y.2.2.1 then false
  else if x.2.2.2 < y.2.2.2 then true else false

/-- The state-creation loop of `Builder.Finish` (the dense loop variable, not
the value returned by `CreateState`, is used for the accept bits). -/
def finishCreateStates (b : Builder) : Nat → Automaton → Automaton
  | 0, a => a
  | k + 1, a =>
    let numDone := b.nextState - (k + 1)
    let (a, _) := a.createState
    let a := a.SetAccept (numDone : Int) (b.IsAccept (numDone : Int))
    finishCreateStates b k a

/-- The transition replay loop of `Builder.Finish`. -/
def finishReplay : List (Int × Int × Int × Int) → Automaton → Except PErr Automaton
  | [], a => .ok a
  | (s, d, mn, mx) :: rest, a => do
    let a ← a.AddTransition s d mn mx
    finishReplay rest a

/-- `Builder.Finish`: create the states, sort the quadruples by
(src, dest, min, max), replay them, and finish the last state. -/
def Builder.Finish (b : Builder) : Except PErr Automaton := do
  let a := finishCreateStates b b.nextState newAutomaton
  let sorted := sortBy (fun x y => !builderLess y x) (quadsOf b.transitions)
  let a ← finishReplay sorted a
  a.FinishState

/-- `PointTransitions`: a boundary label with the transitions that start at
it and the transitions that end at it. -/
structure PointTransitions where
  point : Int
  starts : List (Int × Int × Int)
  ends : List (Int × Int × Int)
deriving DecidableEq, Repr

/-- `PointTransitionSet.find` + `TransitionList.Add`: append the transition
to the starts (or ends) list of the entry for `point`, creating the entry at
the end of the insertion-ordered list when absent. -/
def ptsAdd1 (pts : List PointTransitions) (point : Int) (t : Int × Int × Int)
    (isStart : Bool) : List PointTransitions :=
  if (pts.find? (fun e => e.point = point)).isSome then
    pts.map (fun e =>
      if e.point = point then
        if isStart then { e with starts := e.starts ++ [t] }
        else { e with ends := e.ends ++ [t] }
      else e)
  else
    pts ++ [{ point := point,
              starts := if isStart then [t] else [],
              ends := if isStart then [] else [t] }]

/-- `PointTransitionSet.Add`: record a start at `min` and an end at `max+1`. -/
def ptsAdd (pts : List PointTransitions) (t : Int × Int × Int) :
    List PointTransitions :=
  ptsAdd1 (ptsAdd1 pts t.2.1 t true) (t.2.2 + 1) t false

/-- The collation loop of `determinize`: gather all outgoing transitions of
the states of the popped subset into the point set. -/
def collate (a : Automaton) : List Int → List PointTransitions →
    Except PErr (List PointTransitions)
  | [], pts => .ok pts
  | s0 :: rest, pts => do
    let ts ← a.transitionsOfState s0
    collate a rest (ts.foldl ptsAdd pts)

/-- The mutable state of the boundary sweep inside `determinize`. -/
structure SweepSt where
  b : Builder
  worklist : List FrozenIntSet
  newstate : List (FrozenIntSet × Int)
  statesSet : StateSet
  accCount : Int
  lastPoint : Int
deriving Repr

/-- Lookup in the `newstate` hash map by a `Hash()` value.  `FrozenIntSet`
equality compares hashes only, and keys equal under it share a bucket, so an
association-list scan by hash is an exact model of `HashMap.Get`. -/
def mapLookupByHash (m : List (FrozenIntSet × Int)) (h : Nat) : Option Int :=
  match m.find? (fun e => e.1.hashCode == h) with
  | some e => some e.2
  | none => none

/-- `HashMap.Get` with a `StateSet` key: hashing the key caches its hash
(the updated key is returned alongside). -/
def mapGet (m : List (FrozenIntSet × Int)) (ss : StateSet) :
    Option Int × StateSet :=
  let (h, ss') := ss.hash
  (mapLookupByHash m h, ss')

/-- `HashMap.Set` with a `FrozenIntSet` key: update the value of a key with
an equal hash if present, otherwise insert. -/
def mapSet (m : List (FrozenIntSet × Int)) (p : FrozenIntSet) (q : Int) :
    List (FrozenIntSet × Int) :=
  if (m.find? (fun e => e.1.hashCode == p.hashCode)).isSome then
    m.map (fun e => if e.1.hashCode == p.hashCode then (e.1, q) else e)
  else m ++ [(p, q)]

/-- The `statesSet.Size() > 0` block at a sweep boundary: look up the active
set; on a miss create a DFA state, freeze the set, push it, record its accept
status; then add the DFA transition over [lastPoint, point-1]. -/
def processInterval (r point : Int) (sw : SweepSt) : SweepSt :=
  if sw.statesSet.size > 0 then
    let (qOpt, ss1) := mapGet sw.newstate sw.statesSet
    match qOpt with
    | some q =>
      { sw with statesSet := ss1,
                b := sw.b.AddTransition r q sw.lastPoint (point - 1) }
    | none =>
      let (b1, q) := sw.b.createState
      let p := ss1.freeze (q : Int)
      let b2 := b1.SetAccept (q : Int) (decide (sw.accCount > 0))
      { sw with b := b2.AddTransition r (q : Int) sw.lastPoint (point - 1),
                worklist := sw.worklist ++ [p],
                newstate := mapSet sw.newstate p (q : Int),
                statesSet := ss1 }
  else sw

/-- Close the intervals ending at the boundary: decrement occurrence counts
and the count of active accepting states. -/
def processEnds (a : Automaton) : List (Int × Int × Int) → SweepSt → SweepSt
  | [], sw => sw
  | (d, _, _) :: rest, sw =>
    processEnds a rest
      { sw with statesSet := sw.statesSet.decr d,
                accCount := if a.IsAccept d then sw.accCount - 1 else sw.accCount }

/-- Open the intervals starting at the boundary. -/
def processStarts (a : Automaton) : List (Int × Int × Int) → SweepSt → SweepSt
  | [], sw => sw
  | (d, _, _) :: rest, sw =>
    processStarts a rest
      { sw with statesSet := sw.statesSet.incr d,
                accCount := if a.IsAccept d then sw.accCount + 1 else sw.accCount }

/-- One sweep boundary of `determinize`. -/
def sweepPoint (a : Automaton) (r : Int) (sw : SweepSt) (pt : PointTransitions) :
    SweepSt :=
  let sw := processInterval r pt.point sw
  let sw := processEnds a pt.ends sw
  let sw := processStarts a pt.starts sw
  { sw with lastPoint := pt.point }

/-- The sweep over all sorted boundaries. -/
def sweepAll (a : Automaton) (r : Int) : List PointTransitions → SweepSt → SweepSt
  | [], sw => sw
  | pt :: rest, sw => sweepAll a r rest (sweepPoint a r sw pt)

/-- The loop state of `determinize`'s worklist loop. -/
structure DetState where
  worklist : List FrozenIntSet
  b : Builder
  newstate : List (FrozenIntSet × Int)
  statesSet : StateSet
  effortSpent : Int
deriving Repr

/-- The body of one worklist iteration of `determinize` (after the effort
check): collate the popped subset's transitions, skip when there are none,
otherwise sort the boundaries and sweep. -/
def detBody (a : Automaton) (st : DetState) (s : FrozenIntSet) :
    Except PErr DetState := do
  let pts ← collate a s.values []
  if pts.isEmpty then .ok st
  else
    let pts := sortBy (fun x y => decide (x.point ≤ y.point)) pts
    let sw := sweepAll a s.state pts
      { b := st.b, worklist := st.worklist, newstate := st.newstate,
        statesSet := st.statesSet, accCount := 0, lastPoint := -1 }
    .ok { st with worklist := sw.worklist, b := sw.b, newstate := sw.newstate,
                  statesSet := sw.statesSet }

/-- The worklist loop of `determinize`.  The loop-local subset-to-DFA-state
map is returned alongside the result so that statements about its keys can be
made; `determinize` projects the result component. -/
def detLoop (a : Automaton) (effortLimit : Int) :
    Nat → DetState → (Except GoErr Automaton) × List (FrozenIntSet × Int)
  | 0, st => (.error .fuel, st.newstate)
  | f + 1, st =>
    match st.worklist with
    | [] => ((st.b.Finish).mapError GoErr.p, st.newstate)
    | s :: rest =>
      let effort := st.effortSpent + (s.values.length : Int)
      if effortLimit ≤ effort then (.error .tooComplex, st.newstate)
      else
        match detBody a { st with worklist := rest, effortSpent := effort } s with
        | .error e => (.error (.p e), st.newstate)
        | .ok st' => detLoop a effortLimit f st'

/-- The sizes of the subsets the worklist loop pops, in order, when no effort
limit interferes (an instrumented twin of `detLoop` built from the same
`detBody`). -/
def detPops (a : Automaton) : Nat → DetState → List Nat
  | 0, _ => []
  | f + 1, st =>
    match st.worklist with
    | [] => []
    | s :: rest =>
      s.values.length ::
        (match detBody a { st with worklist := rest,
                                   effortSpent := st.effortSpent + (s.values.length : Int) } s with
         | .error _ => []
         | .ok st' => detPops a f st')

/-- The pre-seeded key for the initial subset {0}:
`NewFrozenIntSet([]int{0}, uint64(mix(0)+1), 0)`. -/
def initialFrozenSet : FrozenIntSet := NewFrozenIntSet [0] (mix 0 + 1) 0

/-- The initial loop state of `determinize`: builder state 0 created, its
accept bit copied from NFA state 0, the initial subset pre-seeded in the
worklist and the map. -/
def detInit (a : Automaton) : DetState :=
  let (b, _) := NewBuilder.createState
  let b := b.SetAccept 0 (a.IsAccept 0)
  { worklist := [initialFrozenSet], b := b,
    newstate := [(initialFrozenSet, 0)], statesSet := NewStateSet,
    effortSpent := 0 }

/-- `determinize` (operations.go): short-circuit deterministic or ≤1-state
inputs, otherwise run the powerset construction with
`effortLimit = workLimit * 10`. -/
def determinize (a : Automaton) (workLimit : Int) (fuel : Nat) :
    Except GoErr Automaton :=
  if a.deterministic then .ok a
  else if a.GetNumStates ≤ 1 then .ok a
  else (detLoop a (workLimit * 10) fuel (detInit a)).1

/-- `Minimize` (minimizationoperations.go): fast-path empty or trivially
empty inputs to a fresh automaton, otherwise delegate to `determinize`
(the `&&` short-circuit of the fast-path test is preserved). -/
def Minimize (a : Automaton) (determinizeWorkLimit : Int) (fuel : Nat) :
    Except GoErr Automaton :=
  if a.GetNumStates = 0 then .ok newAutomaton
  else if a.IsAccept 0 = false then do
    let cnt ← (a.GetNumTransitionsWithState 0).mapError GoErr.p
    if cnt = 0 then .ok newAutomaton
    else determinize a determinizeWorkLimit fuel
  else determinize a determinizeWorkLimit fuel

/-- Checked indexing into a generic list (Go slice indexing panics when out
of range). -/
def listGetG {α : Type} (l : List α) (i : Int) : Except PErr α :=
  if h : 0 ≤ i ∧ i.toNat < l.length then .ok (l.get ⟨i.toNat, h.2⟩)
  else .error (.panic "index out of range")

/-- The walk loop of `GetSingletonAutomaton`.  The source tests that the
transition's destination IS already in `visited` before following it (the
spine is only followed into previously seen states). -/
def singletonLoop (a : Automaton) : Nat → Int → List Int → List Int →
    Except GoErr (Option (List Int))
  | 0, _, _, _ => .error .fuel
  | f + 1, s, visited, ints =>
    let visited := s :: visited
    if a.IsAccept s = false then
      (do
        let cnt ← (a.GetNumTransitionsWithState s).mapError GoErr.p
        if cnt = 1 then do
          let (d, mn, mx) ← (a.getTransition s 0).mapError GoErr.p
          if mn = mx ∧ visited.contains d then
            singletonLoop a f d visited (ints ++ [mn])
          else .ok none
        else .ok none)
    else do
      let cnt ← (a.GetNumTransitionsWithState s).mapError GoErr.p
      if cnt = 0 then .ok (some ints) else .ok none

/-- `GetSingletonAutomaton` (operations.go): `none` models the Go
`nil, nil` "not a singleton" result. -/
def GetSingletonAutomaton (a : Automaton) (fuel : Nat) :
    Except GoErr (Option (List Int)) :=
  if a.deterministic = false then
    .error (.p (.err "input automaton must be deterministic"))
  else singletonLoop a fuel 0 [] []

/-- The inner index loop of `getSortedTransitions` for one state. -/
def sortedTransOfState (a : Automaton) (s : Int) : Nat → Nat →
    Except PErr (List (Int × Int × Int))
  | _, 0 => .ok []
  | t, k + 1 => do
    let tr ← a.getTransition s (t : Int)
    let rest ← sortedTransOfState a s (t + 1) k
    .ok (tr :: rest)

/-- `Automaton.getSortedTransitions`: all transitions for all states. -/
def Automaton.getSortedTransitions (a : Automaton) :
    Except PErr (List (List (Int × Int × Int))) := do
  let states := List.range a.GetNumStates
  states.foldlM (fun acc s => do
    let cnt ← a.GetNumTransitionsWithState (s : Int)
    let ts ← sortedTransOfState a (s : Int) 0 cnt.toNat
    pure (acc ++ [ts])) []

/-- The breadth-first search shared by the live-state passes. -/
def bfsLive (a : Automaton) : Nat → List Int → List Bool → Except GoErr (List Bool)
  | 0, _, _ => .error .fuel
  | _ + 1, [], live => .ok live
  | f + 1, s :: rest, live => do
    let ts ← (a.transitionsOfState s).mapError GoErr.p
    let (live, work) := ts.foldl
      (fun (acc : List Bool × List Int) t =>
        if bitTest acc.1 t.1 then acc
        else (bitSetTo acc.1 t.1 true, acc.2 ++ [t.1]))
      (live, rest)
    bfsLive a f work live

/-- `getLiveStatesFromInitial`. -/
def getLiveStatesFromInitial (a : Automaton) (fuel : Nat) :
    Except GoErr (List Bool) :=
  if a.GetNumStates = 0 then .ok []
  else bfsLive a fuel [0] (bitSetTo [] 0 true)

/-- The edge-reversal loop of `getLiveStatesToAccept`. -/
def reverseIntoBuilder (a : Automaton) : Nat → Nat → Builder → Except PErr Builder
  | _, 0, b => .ok b
  | s, k + 1, b => do
    let ts ← a.transitionsOfState (s : Int)
    let b := ts.foldl (fun b t => b.AddTransition t.1 (s : Int) t.2.1 t.2.2) b
    reverseIntoBuilder a (s + 1) k b

/-- `getLiveStatesToAccept`: build the reverse automaton with a Builder, then
BFS from the accept states. -/
def getLiveStatesToAccept (a : Automaton) (fuel : Nat) :
    Except GoErr (List Bool) := do
  let numStates := a.GetNumStates
  let b := (List.range numStates).foldl (fun (b : Builder) _ => b.createState.1) NewBuilder
  let b ← (reverseIntoBuilder a 0 numStates b).mapError GoErr.p
  let a2 ← (b.Finish).mapError GoErr.p
  let accepts := (List.range numStates).filter (fun s => a.IsAccept (s : Int))
  let live := accepts.foldl (fun l s => bitSetTo l (s : Int) true) []
  bfsLive a2 fuel (accepts.map (fun s => (s : Int))) live

/-- `getLiveStates`: the source computes both passes but calls the
non-mutating `bitset.Union` and discards its result, so the value returned is
reachability from the initial state only (the to-accept pass still runs and
can fail). -/
def getLiveStates (a : Automaton) (fuel : Nat) : Except GoErr (List Bool) := do
  let live ← getLiveStatesFromInitial a fuel
  let _ ← getLiveStatesToAccept a fuel
  .ok live

/-- The copy loop of `removeDeadStates` for transitions of live states. -/
def rdsReplay (a : Automaton) (liveSet : List Bool) (mp : List Int) :
    Nat → Nat → Automaton → Except PErr Automaton
  | _, 0, result => .ok result
  | i, k + 1, result => do
    let result ←
      if bitTest liveSet (i : Int) then do
        let ts ← a.transitionsOfState (i : Int)
        ts.foldlM (fun (r : Automaton) t =>
          if bitTest liveSet t.1 then do
            let src ← listGet mp (i : Int)
            let dst ← listGet mp t.1
            r.AddTransition src dst t.2.1 t.2.2
          else .ok r) result
      else .ok result
    rdsReplay a liveSet mp (i + 1) k result

/-- `removeDeadStates`: keep live states (see `getLiveStates`), renumbering
them with the ids `CreateState` returns. -/
def removeDeadStates (a : Automaton) (fuel : Nat) : Except GoErr Automaton := do
  let numStates := a.GetNumStates
  let liveSet ← getLiveStates a fuel
  let init : Automaton × List Int := (newAutomaton, List.replicate numStates 0)
  let (result, mp) := (List.range numStates).foldl
    (fun (acc : Automaton × List Int) (i : Nat) =>
      if bitTest liveSet (i : Int) then
        let (r, id) := acc.1.createState
        (r.SetAccept id (a.IsAccept (i : Int)), acc.2.set i id)
      else acc) init
  let result ← (rdsReplay a liveSet mp 0 numStates result).mapError GoErr.p
  (result.FinishState).mapError GoErr.p

/-- `statePair` (operations.go): a product state and its two components. -/
structure StatePair where
  s : Int
  s1 : Int
  s2 : Int
deriving DecidableEq, Repr

/-- `HashMap.Get` on the product-state map: `statePair.Equals` compares the
two components, and equal pairs hash alike, so an association-list scan is an
exact model. -/
def spFind (m : List StatePair) (s1 s2 : Int) : Option StatePair :=
  m.find? (fun q => q.s1 == s1 && q.s2 == s2)

/-- The `b2` advance in `intersection`: skip transitions of `t2` that end
before `minV`. -/
def advanceB2 (t2 : List (Int × Int × Int)) (minV : Int) : Nat → Nat → Nat
  | 0, b2 => b2
  | f + 1, b2 =>
    match t2.get? b2 with
    | some tr => if tr.2.2 < minV then advanceB2 t2 minV f (b2 + 1) else b2
    | none => b2

/-- The (emptied) `n2` scan in `intersection`: the source advances `n2` past
every overlapping transition without doing anything, leaving `n2` at the
first index whose `min` exceeds `maxV` — or at `len(t2)`. -/
def scanN2 (t2 : List (Int × Int × Int)) (maxV : Int) : Nat → Nat → Nat
  | 0, n2 => n2
  | f + 1, n2 =>
    match t2.get? n2 with
    | some tr => if maxV ≥ tr.2.1 then scanN2 t2 maxV f (n2 + 1) else n2
    | none => n2

/-- The `n1` loop of `intersection`: after the scans the source reads
`t2[n2]`, which panics when `n2 = len(t2)`. -/
def interN1 (t2 : List (Int × Int × Int)) (src : Int) :
    List (Int × Int × Int) → Nat → Automaton → List StatePair → List StatePair →
    Except PErr (Automaton × List StatePair × List StatePair)
  | [], _, c, wl, es => .ok (c, wl, es)
  | tr1 :: rest, b2, c, wl, es => do
    let b2 := advanceB2 t2 tr1.2.1 (t2.length + 1) b2
    let n2 := scanN2 t2 tr1.2.2 (t2.length + 1) b2
    let t2n2 ← listGetG t2 (n2 : Int)
    if t2n2.2.2 ≥ tr1.2.1 then do
      let (r, c, wl, es) ←
        match spFind es tr1.1 t2n2.1 with
        | some r => .ok (r, c, wl, es)
        | none =>
          let (c, qs) := c.createState
          let q : StatePair := { s := qs, s1 := tr1.1, s2 := t2n2.1 }
          .ok (q, c, wl ++ [q], es ++ [q])
      let minI := if tr1.2.1 > t2n2.2.1 then tr1.2.1 else t2n2.2.1
      let maxI := if tr1.2.2 < t2n2.2.2 then tr1.2.2 else t2n2.2.2
      let c ← c.AddTransition src r.s minI maxI
      interN1 t2 src rest b2 c wl es
    else
      interN1 t2 src rest b2 c wl es

/-- The worklist loop of `intersection`. -/
def interLoop (a1 a2 : Automaton)
    (t1s t2s : List (List (Int × Int × Int))) :
    Nat → List StatePair → List StatePair → Automaton → Except GoErr Automaton
  | 0, _, _, _ => .error .fuel
  | f + 1, [], _, c => do
    let c ← (c.FinishState).mapError GoErr.p
    removeDeadStates c f
  | f + 1, p :: rest, es, c => do
    let c := c.SetAccept p.s (a1.IsAccept p.s1 && a2.IsAccept p.s2)
    let t1 ← (listGetG t1s p.s1).mapError GoErr.p
    let t2 ← (listGetG t2s p.s2).mapError GoErr.p
    match interN1 t2 p.s t1 0 c rest es with
    | .error e => .error (.p e)
    | .ok (c, wl, es) => interLoop a1 a2 t1s t2s f wl es c

/-- `intersection` (operations.go).  Go's `a1 == a2` compares pointers; the
embedding has no object identity, so structural equality is used — the two
coincide on the analyzed inputs, which are structurally distinct. -/
def intersection (a1 a2 : Automaton) (fuel : Nat) : Except GoErr Automaton :=
  if a1 = a2 then .ok a1
  else if a1.GetNumStates = 0 then .ok a1
  else if a2.GetNumStates = 0 then .ok a2
  else do
    let t1s ← (a1.getSortedTransitions).mapError GoErr.p
    let t2s ← (a2.getSortedTransitions).mapError GoErr.p
    let (c, _) := newAutomaton.createState
    let p : StatePair := { s := 0, s1 := 0, s2 := 0 }
    interLoop a1 a2 t1s t2s fuel [p] [p] c

/-- The sixteen regex AST kinds (regexp.go). -/
inductive Kind where
  | union | concatenation | intersection | optional | repeat
  | repeatMin | repeatMinmax | complement | char | charRange
  | anyChar | empty | string | anyString | automaton | interval
deriving DecidableEq, Repr

/-- A regex AST node.  `null` models Go's nil child pointers; the string
payload is carried as code points.  Field order follows `newRegExp`:
kind, exp1, exp2, s, c, min, max, digits, from, to, plus the node's flags. -/
inductive RegExp where
  | null
  | node (kind : Kind) (exp1 exp2 : RegExp) (s : Option (List Int))
         (c minC maxC digits fromC toC : Int) (flags : Nat)
deriving DecidableEq, Repr

/-- `newRegExp` (the node allocator). -/
def newRegExpNode (flags : Nat) (kind : Kind) (exp1 exp2 : RegExp)
    (s : Option (List Int)) (c minC maxC digits fromC toC : Int) : RegExp :=
  .node kind exp1 exp2 s c minC maxC digits fromC toC flags

/-- `newContainerNode`. -/
def newContainerNode (flags : Nat) (kind : Kind) (exp1 exp2 : RegExp) : RegExp :=
  newRegExpNode flags kind exp1 exp2 none 0 0 0 0 0 0

/-- `newRepeatingNode`. -/
def newRepeatingNode (flags : Nat) (kind : Kind) (exp : RegExp) (minC maxC : Int) :
    RegExp :=
  newRegExpNode flags kind exp .null none 0 minC maxC 0 0 0

/-- `newLeafNode`. -/
def newLeafNode (flags : Nat) (kind : Kind) (s : Option (List Int))
    (c minC maxC digits fromC toC : Int) : RegExp :=
  newRegExpNode flags kind .null .null s c minC maxC digits fromC toC

/-- Kind test on a possibly-nil node. -/
def RegExp.kindIs (e : RegExp) (k : Kind) : Bool :=
  match e with
  | .null => false
  | .node k' _ _ _ _ _ _ _ _ _ _ => k' == k

/-- The `exp1` child (null on a nil node). -/
def RegExp.exp1Of : RegExp → RegExp
  | .null => .null
  | .node _ e1 _ _ _ _ _ _ _ _ _ => e1

/-- The `exp2` child (null on a nil node). -/
def RegExp.exp2Of : RegExp → RegExp
  | .null => .null
  | .node _ _ e2 _ _ _ _ _ _ _ _ => e2

def makeUnion (flags : Nat) (exp1 exp2 : RegExp) : RegExp :=
  newContainerNode flags .union exp1 exp2

def makeIntersectionR (flags : Nat) (exp1 exp2 : RegExp) : RegExp :=
  newContainerNode flags .intersection exp1 exp2

def makeOptional (flags : Nat) (exp : RegExp) : RegExp :=
  newContainerNode flags .optional exp .null

def makeRepeat (flags : Nat) (exp : RegExp) : RegExp :=
  newContainerNode flags .repeat exp .null

def makeRepeatMin (flags : Nat) (exp : RegExp) (minC : Int) : RegExp :=
  newRepeatingNode flags .repeatMin exp minC 0

def makeRepeatRange (flags : Nat) (exp : RegExp) (minC maxC : Int) : RegExp :=
  newRepeatingNode flags .repeatMinmax exp minC maxC

def makeComplement (flags : Nat) (exp : RegExp) : RegExp :=
  newContainerNode flags .complement exp .null

def makeChar (flags : Nat) (c : Int) : RegExp :=
  newLeafNode flags .char none c 0 0 0 0 0

def makeCharRangeR (flags : Nat) (fromC toC : Int) : Except GoErr RegExp :=
  if fromC > toC then .error (.p (.err "invalid range"))
  else .ok (newLeafNode flags .charRange none 0 0 0 0 fromC toC)

def makeAnyChar (flags : Nat) : RegExp :=
  newContainerNode flags .anyChar .null .null

def makeEmptyR (flags : Nat) : RegExp :=
  newContainerNode flags .empty .null .null

def makeString (flags : Nat) (s : List Int) : RegExp :=
  newLeafNode flags .string (some s) 0 0 0 0 0 0

def makeAnyStringR (flags : Nat) : RegExp :=
  newContainerNode flags .anyString .null .null

def makeAutomatonR (flags : Nat) (s : List Int) : RegExp :=
  newLeafNode flags .automaton (some s) 0 0 0 0 0 0

def makeInterval (flags : Nat) (minC maxC digits : Int) : RegExp :=
  newLeafNode flags .interval none 0 minC maxC digits 0 0

/-- `makeStringRegExp`: merge two CHAR/STRING operands into one STRING. -/
def makeStringRegExp (flags : Nat) (exp1 exp2 : RegExp) : RegExp :=
  let part : RegExp → List Int := fun e =>
    match e with
    | .node .string _ _ (some s) _ _ _ _ _ _ _ => s
    | .node _ _ _ _ c _ _ _ _ _ _ => [c]
    | .null => []
  makeString flags (part exp1 ++ part exp2)

/-- `makeConcatenation` with the CHAR/STRING merging optimization. -/
def makeConcatenation (flags : Nat) (exp1 exp2 : RegExp) : RegExp :=
  if (exp1.kindIs .char || exp1.kindIs .string) &&
     (exp2.kindIs .char || exp2.kindIs .string) then
    makeStringRegExp flags exp1 exp2
  else
    let p :=
      if exp1.kindIs .concatenation &&
         (exp1.exp2Of.kindIs .char || exp1.exp2Of.kindIs .string) &&
         (exp2.kindIs .char || exp2.kindIs .string) then
        (exp1.exp1Of, makeStringRegExp flags exp1.exp2Of exp2)
      else if (exp1.kindIs .char || exp1.kindIs .string) &&
              exp2.kindIs .concatenation &&
              (exp2.exp1Of.kindIs .char || exp2.exp1Of.kindIs .string) then
        (makeStringRegExp flags exp1 exp2.exp1Of, exp2.exp2Of)
      else (exp1, exp2)
    newContainerNode flags .concatenation p.1 p.2

/-- The parser state: the rune array, the cursor, and the flag set. -/
structure PSt where
  orig : List Int
  pos : Nat
  flags : Nat
deriving DecidableEq, Repr

/-- `RegExp.more`. -/
def PSt.more (st : PSt) : Bool := st.pos < st.orig.length

/-- The rune under the cursor. -/
def PSt.cur (st : PSt) : Option Int := st.orig.get? st.pos

/-- `RegExp.peek`: the cursor rune is one of `s`. -/
def PSt.peekIn (st : PSt) (s : List Int) : Bool :=
  st.more && (match st.cur with | some c => s.contains c | none => false)

/-- `RegExp.match`: consume `c` when it is under the cursor. -/
def PSt.matchC (st : PSt) (c : Int) : Bool × PSt :=
  if st.cur = some c then (true, { st with pos := st.pos + 1 }) else (false, st)

/-- `RegExp.next`: consume one rune; `io.EOF` past the end. -/
def PSt.next (st : PSt) : Except GoErr (Int × PSt) :=
  match st.cur with
  | some c => .ok (c, { st with pos := st.pos + 1 })
  | none => .error (.p (.err "EOF"))

/-- `RegExp.check`: flag test. -/
def PSt.check (st : PSt) (f : Nat) : Bool := st.flags &&& f ≠ 0

/-- The digit runs consumed by `parseRepeatExp` and the `<m-n>` form. -/
def digitsLoop : Nat → PSt → (List Int × PSt)
  | 0, st => ([], st)
  | f + 1, st =>
    if st.peekIn [48, 49, 50, 51, 52, 53, 54, 55, 56, 57] then
      match st.cur with
      | some c =>
        let (ds, st') := digitsLoop f { st with pos := st.pos + 1 }
        (c :: ds, st')
      | none => ([], st)
    else ([], st)

/-- `strconv.Atoi` on a rune run (digits with optional sign). -/
def atoiGo (s : List Int) : Except GoErr Int :=
  if s.isEmpty then .error (.p (.err "invalid syntax"))
  else
    let (neg, digs) :=
      match s with
      | 45 :: rest => (true, rest)
      | 43 :: rest => (false, rest)
      | _ => (false, s)
    if digs.isEmpty || digs.any (fun d => d < 48 || 57 < d) then
      .error (.p (.err "invalid syntax"))
    else
      let n := digs.foldl (fun acc d => acc * 10 + (d - 48)) (0 : Int)
      .ok (if neg then -n else n)

/-- `strings.IndexRune`. -/
def indexRune (s : List Int) (c : Int) : Int :=
  match s.findIdx? (fun x => x = c) with
  | some i => (i : Int)
  | none => -1

/-- `strings.LastIndexByte`. -/
def lastIndexRune (s : List Int) (c : Int) : Int :=
  match s.reverse.findIdx? (fun x => x = c) with
  | some i => (s.length : Int) - 1 - (i : Int)
  | none => -1


/-- The `for more() && !peek(x)` skip loops of `parseSimpleExp`. -/
def skipUntil : Nat → Int → PSt → PSt
  | 0, _, st => st
  | f + 1, c, st =>
    if st.more && !(st.peekIn [c]) then
      skipUntil f c { st with pos := st.pos + 1 }
    else st

/-- `parseCharExp`: optional backslash, then any code point. -/
def parseCharExpP (st : PSt) : Except GoErr (Int × PSt) :=
  let (_, st) := st.matchC 92
  st.next

mutual

/-- `parseUnionExp`. -/
def parseUnionExp : Nat → PSt → Except GoErr (RegExp × PSt)
  | 0, _ => .error .fuel
  | f + 1, st => do
    let (e, st) ← parseInterExp f st
    let (m, st) := st.matchC 124
    if m then do
      let (e2, st) ← parseUnionExp f st
      .ok (makeUnion st.flags e e2, st)
    else .ok (e, st)

/-- `parseInterExp` (gated by the INTERSECTION flag). -/
def parseInterExp : Nat → PSt → Except GoErr (RegExp × PSt)
  | 0, _ => .error .fuel
  | f + 1, st => do
    let (e, st) ← parseConcatExp f st
    if st.check 1 then
      let (m, st) := st.matchC 38
      if m then do
        let (e2, st) ← parseInterExp f st
        .ok (makeIntersectionR st.flags e e2, st)
      else .ok (e, st)
    else .ok (e, st)

/-- `parseConcatExp`: implicit concatenation, terminated by `)`, `|`, `&`. -/
def parseConcatExp : Nat → PSt → Except GoErr (RegExp × PSt)
  | 0, _ => .error .fuel
  | f + 1, st => do
    let (e, st) ← parseRepeatExp f st
    if st.more && !(st.peekIn [41, 124]) && (!st.check 1 || !(st.peekIn [38])) then do
      let (e2, st) ← parseConcatExp f st
      .ok (makeConcatenation st.flags e e2, st)
    else .ok (e, st)

/-- `parseRepeatExp`. -/
def parseRepeatExp : Nat → PSt → Except GoErr (RegExp × PSt)
  | 0, _ => .error .fuel
  | f + 1, st => do
    let (e, st) ← parseComplExp f st
    repeatSuffixLoop f e st

/-- The `for r.peek("?*+{")` loop of `parseRepeatExp`.  When `{n}` carries no
comma, the source neither consumes the closing brace nor builds a node: the
parsed count is discarded and the loop simply re-peeks. -/
def repeatSuffixLoop : Nat → RegExp → PSt → Except GoErr (RegExp × PSt)
  | 0, _, _ => .error .fuel
  | f + 1, e, st =>
    if st.peekIn [63, 42, 43, 123] then
      let (m, st') := st.matchC 63
      if m then repeatSuffixLoop f (makeOptional st'.flags e) st'
      else
        let (m, st') := st.matchC 42
        if m then repeatSuffixLoop f (makeRepeat st'.flags e) st'
        else
          let (m, st') := st.matchC 43
          if m then repeatSuffixLoop f (makeRepeatMin st'.flags e 1) st'
          else
            let (m, st') := st.matchC 123
            if m then do
              let start := st'.pos
              let (ds, st') := digitsLoop (st'.orig.length + 1) st'
              if start = st'.pos then
                .error (.p (.err "integer expected"))
              else do
                let n ← atoiGo ds
                let (mc, st') := st'.matchC 44
                if mc then do
                  let start2 := st'.pos
                  let (ds2, st') := digitsLoop (st'.orig.length + 1) st'
                  let m2 ← (if start2 ≠ st'.pos then atoiGo ds2 else .ok n)
                  let (mb, st') := st'.matchC 125
                  if !mb then .error (.p (.err "expected closing brace"))
                  else repeatSuffixLoop f (makeRepeatRange st'.flags e n m2) st'
                else
                  repeatSuffixLoop f e st'
            else repeatSuffixLoop f e st'
    else .ok (e, st)

/-- `parseComplExp` (gated by the COMPLEMENT flag). -/
def parseComplExp : Nat → PSt → Except GoErr (RegExp × PSt)
  | 0, _ => .error .fuel
  | f + 1, st =>
    if st.check 2 then
      let (m, st') := st.matchC 126
      if m then do
        let (e2, st') ← parseComplExp f st'
        .ok (makeComplement st'.flags e2, st')
      else parseCharClassExp f st
    else parseCharClassExp f st

/-- `parseCharClassExp`. -/
def parseCharClassExp : Nat → PSt → Except GoErr (RegExp × PSt)
  | 0, _ => .error .fuel
  | f + 1, st =>
    let (m, st') := st.matchC 91
    if m then do
      let (negate, st') := st'.matchC 94
      let (e, st') ← parseCharClasses f st'
      let e := if negate then
          makeIntersectionR st'.flags (makeAnyChar st'.flags) (makeComplement st'.flags e)
        else e
      let (mb, st') := st'.matchC 93
      if !mb then .error (.p (.err "expected closing bracket"))
      else .ok (e, st')
    else parseSimpleExp f st

/-- `parseCharClasses`. -/
def parseCharClasses : Nat → PSt → Except GoErr (RegExp × PSt)
  | 0, _ => .error .fuel
  | f + 1, st => do
    let (e, st) ← parseCharClass f st
    charClassesLoop f e st

/-- The union loop of `parseCharClasses`. -/
def charClassesLoop : Nat → RegExp → PSt → Except GoErr (RegExp × PSt)
  | 0, _, _ => .error .fuel
  | f + 1, e, st =>
    if st.more && !(st.peekIn [93]) then do
      let (e2, st) ← parseCharClass f st
      charClassesLoop f (makeUnion st.flags e e2) st
    else .ok (e, st)

/-- `parseCharClass`. -/
def parseCharClass : Nat → PSt → Except GoErr (RegExp × PSt)
  | 0, _ => .error .fuel
  | _ + 1, st => do
    let (c, st) ← parseCharExpP st
    let (m, st) := st.matchC 45
    if m then do
      let (c2, st) ← parseCharExpP st
      let e ← makeCharRangeR st.flags c c2
      .ok (e, st)
    else .ok (makeChar st.flags c, st)

/-- `parseSimpleExp`. -/
def parseSimpleExp : Nat → PSt → Except GoErr (RegExp × PSt)
  | 0, _ => .error .fuel
  | f + 1, st =>
    let (m, st') := st.matchC 46
    if m then .ok (makeAnyChar st'.flags, st')
    else if st.check 4 then
      let (m, st') := st.matchC 35
      if m then .ok (makeEmptyR st'.flags, st') else parseSimpleExpA f st
    else parseSimpleExpA f st

/-- `parseSimpleExp`, continued after the `.`/`#` alternatives. -/
def parseSimpleExpA : Nat → PSt → Except GoErr (RegExp × PSt)
  | 0, _ => .error .fuel
  | f + 1, st =>
    if st.check 8 then
      let (m, st') := st.matchC 64
      if m then .ok (makeAnyStringR st'.flags, st') else parseSimpleExpB f st
    else parseSimpleExpB f st

/-- `parseSimpleExp`, continued: quoted strings, groups, `<...>`, plain
characters. -/
def parseSimpleExpB : Nat → PSt → Except GoErr (RegExp × PSt)
  | 0, _ => .error .fuel
  | f + 1, st =>
    let (m, st') := st.matchC 34
    if m then
      let start := st'.pos
      let st' := skipUntil (st'.orig.length + 1) 34 st'
      let (mq, st') := st'.matchC 34
      if !mq then .error (.p (.err "expected closing quote"))
      else .ok (makeString st'.flags ((st'.orig.drop start).take (st'.pos - 1 - start)), st')
    else
      let (m, st') := st.matchC 40
      if m then
        let (mr, st') := st'.matchC 41
        if mr then .ok (makeString st'.flags [], st')
        else do
          let (e, st') ← parseUnionExp f st'
          let (mr, st') := st'.matchC 41
          if !mr then .error (.p (.err "expected closing paren"))
          else .ok (e, st')
      else if (st.check 16 || st.check 32) then
        let (m, st') := st.matchC 60
        if m then
          let start := st'.pos
          let st' := skipUntil (st'.orig.length + 1) 62 st'
          let (mg, st') := st'.matchC 62
          if !mg then .error (.p (.err "expected closing angle"))
          else
            let s := (st'.orig.drop start).take (st'.pos - 1 - start)
            let i := indexRune s 45
            if i = -1 then
              if !st'.check 16 then .error (.p (.err "interval syntax error"))
              else .ok (makeAutomatonR st'.flags s, st')
            else if !st'.check 32 then .error (.p (.err "illegal identifier"))
            else if i = 0 || i = (s.length : Int) - 1 || i ≠ lastIndexRune s 45 then do
              let smin := s.take i.toNat
              let smax := s.drop (i.toNat + 1)
              let imin ← atoiGo smin
              let imax ← atoiGo smax
              let digits : Int := if smin.length = smax.length then (smin.length : Int) else 0
              let p := if imin > imax then (imax, imin) else (imin, imax)
              .ok (makeInterval st'.flags p.1 p.2 digits, st')
            else .error (.p (.err "interval syntax error"))
        else do
          let (c, st') ← parseCharExpP st
          .ok (makeChar st'.flags c, st')
      else do
        let (c, st') ← parseCharExpP st
        .ok (makeChar st'.flags c, st')

end


/-- `NewRegExp` with the default options: `syntaxFlags = ALL (0xff)`,
`matchFlags = 0`.  The field copy into the receiver is identity on the node
and is elided. -/
def NewRegExp (s : List Int) (fuel : Nat) : Except GoErr RegExp :=
  let flags : Nat := 255
  if s.length = 0 then .ok (makeString flags [])
  else do
    let (e, st) ← parseUnionExp fuel { orig := s, pos := 0, flags := flags }
    if st.pos < s.length then .error (.p (.err "end-of-string expected"))
    else .ok e

/-- `RegExp.toAutomatonInternal`, modelled for the leaf kinds and the
REPEAT_MIN work-limit gate.  Compound kinds whose lowering is built from the
composition operators outside the modelled fragment return the marker error
`GoErr.unmodelled`; with default flags (ALL = 0xff) the case-insensitive
alternatives are dead (`0xff &&& 0x100 = 0`).  The `automaton`/`interval`
kinds also need externally supplied context (a provider; the decimal interval
constructor is a panic stub in automata.go) and are marked likewise. -/
def toAutomatonInternal (fuel : Nat) (r : RegExp) (determinizeWorkLimit : Int) :
    Except GoErr Automaton :=
  match fuel with
  | 0 => .error .fuel
  | f + 1 =>
    match r with
    | .null => .error (.p (.panic "nil regexp"))
    | .node kind exp1 _ s c minC _ _ fromC toC flags =>
      match kind with
      | .repeatMin => do
        let a ← toAutomatonInternal f exp1 determinizeWorkLimit
        let minNumStates := ((a.GetNumStates : Int) - 1) * minC
        if minNumStates > determinizeWorkLimit then
          .error (.p (.err "too complex to determinize"))
        else .error .unmodelled
      | .char =>
        if flags &&& 256 ≠ 0 then .error .unmodelled
        else (Automata.MakeChar c).mapError GoErr.p
      | .charRange => (Automata.MakeCharRange fromC toC).mapError GoErr.p
      | .anyChar => (Automata.MakeCharRange 0 1114111).mapError GoErr.p
      | .empty => .ok Automata.MakeEmpty
      | .string =>
        if flags &&& 256 ≠ 0 then .error .unmodelled
        else
          match s with
          | some cs => (Automata.MakeString cs).mapError GoErr.p
          | none => .error (.p (.panic "nil string"))
      | .anyString => Automata.MakeAnyString.mapError GoErr.p
      | _ => .error .unmodelled

/-- Adjacent-pairs sortedness by a boolean comparator (used to state the
canonical-form claims). -/
def adjacentSortedBy {α : Type} (le : α → α → Bool) : List α → Bool
  | [] => true
  | [_] => true
  | x :: y :: rest => le x y && adjacentSortedBy le (y :: rest)

/-- Non-strict (min, max, dest) order: `x` may precede `y`. -/
def minMaxDestLe (x y : Int × Int × Int) : Bool := !minMaxDestLess y x

/-- The three-state automaton of the C3 counterexample, built through the
public API: ids 0, 2, 4 are the values `CreateState` returns; state "2" gets
two transitions added out of order. -/
def c3auto : Except PErr Automaton := do
  let (a, _) := newAutomaton.createState
  let (a, _) := a.createState
  let (a, _) := a.createState
  let a ← a.AddTransition 0 2 7 7
  let a ← a.AddTransition 2 4 9 9
  let a ← a.AddTransition 2 0 3 3
  a.FinishState

/-- A three-state NFA built with the Builder: state 0 has two transitions on
label 5, to state 1 (non-accepting) and to state 2 (accepting). -/
def Bres : Except PErr Automaton :=
  let (b, _) := NewBuilder.createState
  let (b, _) := b.createState
  let (b, _) := b.createState
  let b := b.SetAccept 2 true
  let b := b.AddTransition 0 1 5 5
  let b := b.AddTransition 0 2 5 5
  b.Finish

/-- A ten-state NFA whose determinization pops subsets of total size exactly
10: {0}, {1,2}, {3}, …, {9}. -/
def Wres : Except PErr Automaton :=
  let b := (List.range 10).foldl (fun (b : Builder) _ => b.createState.1) NewBuilder
  let b := b.SetAccept 9 true
  let b := b.AddTransition 0 1 97 97
  let b := b.AddTransition 0 2 97 97
  let b := b.AddTransition 1 3 98 98
  let b := b.AddTransition 2 3 98 98
  let b := b.AddTransition 3 4 97 97
  let b := b.AddTransition 4 5 97 97
  let b := b.AddTransition 5 6 97 97
  let b := b.AddTransition 6 7 97 97
  let b := b.AddTransition 7 8 97 97
  let b := b.AddTransition 8 9 97 97
  b.Finish

/-- C1: the claim says the k-th `create_state` call returns the dense id k-1,
equal to `num_states - 1` at the time of the call.  In the code the second
call on a fresh automaton returns `len(states) = 2` while `num_states = 2`,
so the returned id is 2, not 1: state ids are not dense. -/
theorem createState_nondense_bug :
    (newAutomaton.createState.1.createState.2 = 2
      ∧ newAutomaton.createState.1.createState.1.GetNumStates = 2)
    ∧ newAutomaton.createState.1.createState.2 ≠
        (newAutomaton.createState.1.createState.1.GetNumStates : Int) - 1 := by
  decide

/-- C2: the claim says `intersection` is the classical product construction
and satisfies the run-conjunction law.  On the single-character automata for
'b' and 'a' (whose intersection is the empty language) the emptied inner loop
leaves `n2 = len(t2)` and the subsequent `t2[n2]` read panics, so no
automaton is returned at all. -/
theorem intersection_panics_on_disjoint_chars :
    (do
      let a1 ← (Automata.MakeChar 98).mapError GoErr.p
      let a2 ← (Automata.MakeChar 97).mapError GoErr.p
      intersection a1 a2 50) = .error (.p (.panic "index out of range")) := by
  decide

/-- C3: the claim says every finished state's transitions are sorted by
(min, max, dest).  Because both sorters in `finishCurrentState` ignore the
state's window offset, the second finished state of `c3auto` keeps its
transitions in insertion order [(9,9,→4), (3,3,→0)], which is not sorted by
min. -/
theorem finishCurrentState_unsorted_second_state :
    (do let a ← c3auto; a.transitionsOfState 2) = .ok [(4, 9, 9), (0, 3, 3)]
    ∧ adjacentSortedBy minMaxDestLe [(4, 9, 9), (0, 3, 3)] = false := by
  decide

/-- C7: the claim says compiling "a{50001}" with work limit 50000 fails in
the REPEAT_MIN gate.  The parser's `{n}` handling without a comma builds no
node at all: the digits are consumed and dropped and the closing brace is
read as a literal, so the pattern parses as the literal string "a}" and
compiles to its string automaton with no error. -/
theorem regex_repeat_braces_parsed_as_literal :
    NewRegExp [97, 123, 53, 48, 48, 48, 49, 125] 100 = .ok (makeString 255 [97, 125])
    ∧ ((do
        let r ← NewRegExp [97, 123, 53, 48, 48, 48, 49, 125] 100
        toAutomatonInternal 10 r 50000) :
          Except GoErr Automaton).isOk = true := by
  decide

/-- C8: the claim says `get_singleton(string("xyz")) = [x, y, z]`.  Building
`string("xyz")` already panics (the non-dense `CreateState` ids overflow the
state header array on the third transition), and on the two-character
`string("xy")`, which does build, `GetSingletonAutomaton` returns the
"not a singleton" result because its visited-check is inverted.  The
`any_string` half of the claim does hold. -/
theorem getSingleton_xyz_broken :
    Automata.MakeString [120, 121, 122] = .error (.panic "index out of range")
    ∧ ((do
        let a ← (Automata.MakeString [120, 121]).mapError GoErr.p
        GetSingletonAutomaton a 20) = .ok none)
    ∧ ((do
        let a ← Automata.MakeAnyString.mapError GoErr.p
        GetSingletonAutomaton a 20) = .ok none) := by
  decide

/-- C4 counterexample: the claim says `determinize` fails only when the
accumulated effort exceeds `work_limit × 10`.  On the automaton of `Wres`
with work limit 1 the popped subsets have sizes summing to exactly 10 — the
effort never exceeds 1 × 10 — yet `determinize` returns the too-complex
error, because the source fails already when the effort reaches the limit. -/
theorem determinize_fails_at_exact_budget :
    ((do let w ← Wres.mapError GoErr.p; determinize w 1 50) = .error .tooComplex)
    ∧ Wres.map (fun w => (detPops w 50 (detInit w)).sum) = .ok 10
    ∧ ¬((10 : Int) > 1 * 10) := by
  refine ⟨by decide, by decide, by decide⟩

/-- C5 counterexample: the claim says `run(a, s) ↔ run(Minimize(a), s)` for
every automaton on which `Minimize` succeeds.  On the nondeterministic NFA of
`Bres`, `Run` follows the binary-searched first transition into the
non-accepting state 1 and rejects [5], while `Minimize` (which succeeds)
produces the subset DFA that accepts [5]. -/
theorem minimize_changes_run_on_nondeterministic_input :
    ((do let b ← Bres.mapError GoErr.p; (Run b [5]).mapError GoErr.p) = .ok false)
    ∧ ((do
        let b ← Bres.mapError GoErr.p
        let m ← Minimize b 10000 50
        (Run m [5]).mapError GoErr.p) = .ok true) := by
  refine ⟨by decide, by decide⟩

/-- C6 counterexample: the claim says two frozen sets with different element
arrays are never equal.  `FrozenIntSet.Equals` compares only the cached
hashes, so sets with arrays [1] and [2] but the same cached hash are equal. -/
theorem frozen_equals_ignores_values :
    FrozenIntSet.equals ⟨[1], 1, 123⟩ (.frozen ⟨[2], 1, 123⟩) = true
    ∧ ([1] : List Int) ≠ [2] := by
  decide

/-- C9 counterexample: the claim says `add_transition` and the char-range
constructor fail with a range error when `min > max`.  Both calls succeed:
`AddTransition` stores the inverted range without inspection, and
`MakeCharRange(5, 3)` returns the empty automaton with a nil error. -/
theorem addTransition_accepts_inverted_range :
    (newAutomaton.createState.1.AddTransition 0 0 5 3).isOk = true
    ∧ Automata.MakeCharRange 5 3 = .ok Automata.MakeEmpty := by
  decide

theorem ex_bind_ok {ε α β : Type} (a : α) (f : α → Except ε β) :
    (Except.ok a >>= f) = f a := rfl

theorem ex_bind_err {ε α β : Type} (e : ε) (f : α → Except ε β) :
    ((Except.error e : Except ε α) >>= f) = .error e := rfl

theorem listSet_error_msg {l : List Int} {i v : Int} {e : PErr}
    (h : listSet l i v = .error e) : e = .panic "index out of range" := by
  unfold listSet at h
  split at h
  · exact absurd h (by simp)
  · simpa using h.symm

theorem listSet_ok_len {l m : List Int} {i v : Int}
    (h : listSet l i v = .ok m) : m.length = l.length ∧ 0 ≤ i ∧ i.toNat < l.length := by
  unfold listSet at h
  split at h
  · refine ⟨?_, by assumption⟩
    have : l.set i.toNat v = m := by simpa using h
    rw [← this]
    simp
  · exact absurd h (by simp)

theorem listSet_ok_of_bounds {l : List Int} {i : Int} (h : 0 ≤ i ∧ i.toNat < l.length)
    (v : Int) : listSet l i v = .ok (l.set i.toNat v) := by
  unfold listSet
  simp [h]

/-- C9 (amended): there is no `min ≤ max` validation anywhere on these
paths.  `add_transition` succeeds or fails for reasons entirely independent
of the label range (the same call with any other labels has the same
success), and the char-range constructor maps `min > max` to the empty
automaton with a nil error rather than an InvalidRangeError. -/
theorem range_validation_absent :
    ∀ (a : Automaton) (source dest mn mx mn' mx' : Int),
      ((a.AddTransition source dest mn mx).isOk =
        (a.AddTransition source dest mn' mx').isOk)
      ∧ (mn > mx → Automata.MakeCharRange mn mx = .ok Automata.MakeEmpty) := by
  intro a source dest mn mx mn' mx'
  constructor
  · unfold Automaton.AddTransition
    cases hbr : a.addTransSetup source with
    | error e => rw [ex_bind_err, ex_bind_err]
    | ok a1 =>
      rw [ex_bind_ok, ex_bind_ok]
      cases h1 : listSet a1.transitions (a1.nextTransition : Int) dest with
      | error e => rw [ex_bind_err, ex_bind_err]
      | ok tr1 =>
        rw [ex_bind_ok, ex_bind_ok]
        cases h2 : listSet tr1 ((a1.nextTransition : Int) + 1) mn with
        | error e =>
          obtain rfl := listSet_error_msg h2
          have hb2 : ¬(0 ≤ ((a1.nextTransition : Int) + 1) ∧
              ((a1.nextTransition : Int) + 1).toNat < tr1.length) := by
            intro hc
            rw [listSet_ok_of_bounds hc mn] at h2
            exact absurd h2 (by simp)
          have h2' : listSet tr1 ((a1.nextTransition : Int) + 1) mn'
              = .error (.panic "index out of range") := by
            unfold listSet
            rw [if_neg hb2]
          rw [h2', ex_bind_err, ex_bind_err]
        | ok tr2 =>
          have hb := (listSet_ok_len h2).2
          have h2' := listSet_ok_of_bounds hb mn'
          rw [h2', ex_bind_ok, ex_bind_ok]
          have hlen2 : tr2.length = tr1.length := (listSet_ok_len h2).1
          have hlen2' : (tr1.set ((a1.nextTransition : Int) + 1).toNat mn').length
              = tr1.length := by simp
          cases h3 : listSet tr2 ((a1.nextTransition : Int) + 2) mx with
          | error e =>
            obtain rfl := listSet_error_msg h3
            have hb3 : ¬(0 ≤ ((a1.nextTransition : Int) + 2) ∧
                ((a1.nextTransition : Int) + 2).toNat < tr2.length) := by
              intro hc
              rw [listSet_ok_of_bounds hc mx] at h3
              exact absurd h3 (by simp)
            have hb3' : ¬(0 ≤ ((a1.nextTransition : Int) + 2) ∧
                ((a1.nextTransition : Int) + 2).toNat <
                  (tr1.set ((a1.nextTransition : Int) + 1).toNat mn').length) := by
              rw [hlen2', ← hlen2]
              exact hb3
            have h3' : listSet (tr1.set ((a1.nextTransition : Int) + 1).toNat mn')
                ((a1.nextTransition : Int) + 2) mx'
                = .error (.panic "index out of range") := by
              unfold listSet
              rw [if_neg hb3']
            rw [h3']
          | ok tr3 =>
            have hb3 := (listSet_ok_len h3).2
            rw [hlen2, ← hlen2'] at hb3
            have h3' := listSet_ok_of_bounds hb3 mx'
            rw [h3', ex_bind_ok, ex_bind_ok]
            cases h4 : listGet a1.states (2 * a1.curState + 1) with
            | error e => rw [ex_bind_err, ex_bind_err]
            | ok cnt =>
              rw [ex_bind_ok, ex_bind_ok]
              cases h5 : listSet a1.states (2 * a1.curState + 1) (cnt + 1) with
              | error e => rw [ex_bind_err, ex_bind_err]
              | ok sts =>
                rw [ex_bind_ok, ex_bind_ok]
                rfl
  · intro h
    unfold Automata.MakeCharRange
    rw [if_pos h]

theorem range_validation_absent_witness :
    (newAutomaton.AddTransition 0 1 5 3).isOk =
      (newAutomaton.AddTransition 0 1 0 0).isOk
    ∧ Automata.MakeCharRange 5 3 = .ok Automata.MakeEmpty :=
  ⟨(range_validation_absent newAutomaton 0 1 5 3 0 0).1,
   (range_validation_absent newAutomaton 0 1 5 3 0 0).2 (by decide)⟩

/-- C6 (amended): `FrozenIntSet.Equals` on frozen sets holds exactly when
the two cached hash codes agree; the element arrays play no part. -/
theorem frozen_equals_iff_hash_eq :
    ∀ f g : FrozenIntSet, f.equals (.frozen g) = true ↔ g.hashCode = f.hashCode := by
  intro f g
  simp [FrozenIntSet.equals, IntSetH.hashOf]

theorem frozen_equals_iff_hash_eq_witness :
    FrozenIntSet.equals ⟨[3], 0, 9⟩ (.frozen ⟨[3, 4], 1, 9⟩) = true :=
  (frozen_equals_iff_hash_eq ⟨[3], 0, 9⟩ ⟨[3, 4], 1, 9⟩).mpr rfl

/-- C5 (amended): `Minimize` returns a fresh empty automaton when the input
has no states or when state 0 is non-accepting without transitions; for every
other input that is deterministic (per `is_deterministic`) it returns the
input itself — hence trivially the same `run` behavior.  For nondeterministic
inputs the round-trip law can fail (see the counterexample), because `run`
assumes determinism. -/
theorem minimize_fastpath_and_deterministic_identity :
    ∀ (a : Automaton) (wl : Int) (fuel : Nat),
      (a.GetNumStates = 0 → Minimize a wl fuel = .ok newAutomaton)
      ∧ (a.IsAccept 0 = false → a.GetNumTransitionsWithState 0 = .ok 0 →
          Minimize a wl fuel = .ok newAutomaton)
      ∧ (a.deterministic = true → a.GetNumStates ≠ 0 →
          (a.IsAccept 0 = true ∨
            ∃ n, a.GetNumTransitionsWithState 0 = .ok n ∧ n ≠ 0) →
          Minimize a wl fuel = .ok a) := by
  intro a wl fuel
  refine ⟨?_, ?_, ?_⟩
  · intro h
    unfold Minimize
    rw [if_pos h]
  · intro hacc hcnt
    unfold Minimize
    by_cases h0 : a.GetNumStates = 0
    · rw [if_pos h0]
    · rw [if_neg h0, if_pos hacc, hcnt]
      rfl
  · intro hdet h0 hor
    have hdeterminize : determinize a wl fuel = .ok a := by
      unfold determinize
      rw [if_pos hdet]
    unfold Minimize
    rw [if_neg h0]
    rcases hor with hacc | ⟨n, hn, hne⟩
    · rw [if_neg (by simp [hacc])]
      exact hdeterminize
    · by_cases hacc : a.IsAccept 0 = false
      · rw [if_pos hacc, hn]
        show (if n = 0 then Except.ok newAutomaton else determinize a wl fuel) = _
        rw [if_neg hne]
        exact hdeterminize
      · rw [if_neg hacc]
        exact hdeterminize

theorem minimize_fastpath_witness :
    Minimize (newAutomaton.createState.1.SetAccept 0 true) 5 3
      = .ok (newAutomaton.createState.1.SetAccept 0 true) :=
  (minimize_fastpath_and_deterministic_identity
      (newAutomaton.createState.1.SetAccept 0 true) 5 3).2.2
    rfl (by decide) (.inl (by decide))

theorem mapError_ne_tooComplex (x : Except PErr Automaton) :
    x.mapError GoErr.p ≠ .error .tooComplex := by
  cases x <;> simp [Except.mapError]

theorem detBody_effort {a : Automaton} {st : DetState} {s : FrozenIntSet} {st' : DetState}
    (h : detBody a st s = .ok st') : st'.effortSpent = st.effortSpent := by
  unfold detBody at h
  cases hc : collate a s.values [] with
  | error e => rw [hc, ex_bind_err] at h; exact absurd h (by simp)
  | ok pts =>
    rw [hc, ex_bind_ok] at h
    split at h
    · injection h with h
      rw [← h]
    · injection h with h
      rw [← h]

/-- The worklist loop fails with the too-complex error exactly when, at some
pop, the accumulated effort — the running sum of the popped subset sizes —
reaches (≥) the effort limit. -/
theorem detLoop_tooComplex_iff (a : Automaton) (lim : Int) :
    ∀ (fuel : Nat) (st : DetState),
      (detLoop a lim fuel st).1 = .error .tooComplex ↔
      ∃ k, 1 ≤ k ∧ k ≤ (detPops a fuel st).length ∧
        lim ≤ st.effortSpent + (((detPops a fuel st).take k).sum : Int) := by
  intro fuel
  induction fuel with
  | zero =>
    intro st
    simp [detLoop, detPops]
    intro x h1 h2
    omega
  | succ f ih =>
    rintro ⟨wl, b, ns, ss, eff⟩
    cases wl with
    | nil =>
      constructor
      · intro h
        exact absurd h (mapError_ne_tooComplex _)
      · rintro ⟨k, hk1, hk2, _⟩
        simp [detPops] at hk2
        omega
    | cons s rest =>
      by_cases hlim : lim ≤ eff + (s.values.length : Int)
      · constructor
        · intro _
          refine ⟨1, le_refl 1, by simp [detPops], ?_⟩
          simpa [detPops] using hlim
        · intro _
          simp [detLoop, hlim]
      · cases hb : detBody a ⟨rest, b, ns, ss, eff + (s.values.length : Int)⟩ s with
        | error e =>
          constructor
          · intro h
            simp [detLoop, hlim, hb] at h
          · rintro ⟨k, hk1, hk2, hks⟩
            simp [detPops, hb] at hk2 hks
            have hk : k = 1 := le_antisymm hk2 hk1
            subst hk
            simp at hks
            exact absurd hks hlim
        | ok st' =>
          have heff : st'.effortSpent = eff + (s.values.length : Int) := detBody_effort hb
          have hred : (detLoop a lim (f + 1) ⟨s :: rest, b, ns, ss, eff⟩).1
              = (detLoop a lim f st').1 := by
            simp [detLoop, hlim, hb]
          have hpops : detPops a (f + 1) ⟨s :: rest, b, ns, ss, eff⟩
              = s.values.length :: detPops a f st' := by
            simp [detPops, hb]
          rw [hred, hpops]
          constructor
          · intro h
            obtain ⟨k', h1, h2, h3⟩ := (ih st').mp h
            refine ⟨k' + 1, by omega, by simpa using h2, ?_⟩
            rw [heff] at h3
            simp only [List.take_succ_cons, List.sum_cons]
            push_cast at h3 ⊢
            linarith
          · rintro ⟨k, hk1, hk2, hks⟩
            apply (ih st').mpr
            obtain ⟨k', rfl⟩ : ∃ k', k = k' + 1 := ⟨k - 1, by omega⟩
            cases k' with
            | zero =>
              simp at hks
              exact absurd hks hlim
            | succ k'' =>
              refine ⟨k'' + 1, by omega, by simpa using hk2, ?_⟩
              rw [heff]
              simp only [List.take_succ_cons, List.sum_cons] at hks
              push_cast at hks ⊢
              linarith

/-- C4 (amended): `determinize` accumulates the effort counter by |S| per
popped subset and fails with the too-complex error exactly when the
accumulated effort REACHES OR EXCEEDS `work_limit × 10` at some pop (the
source compares with `>=`, not `>`); an input stays error-free only when the
accumulated effort remains strictly below that budget throughout. -/
theorem determinize_toocomplex_iff_effort_reaches_limit :
    ∀ (a : Automaton) (wl : Int) (fuel : Nat),
      determinize a wl fuel = .error .tooComplex ↔
      (a.deterministic = false ∧ 1 < a.GetNumStates ∧
        ∃ k, 1 ≤ k ∧ k ≤ (detPops a fuel (detInit a)).length ∧
          wl * 10 ≤ (((detPops a fuel (detInit a)).take k).sum : Int)) := by
  intro a wl fuel
  unfold determinize
  by_cases hdet : a.deterministic = true
  · simp [hdet]
  · have hdet' : a.deterministic = false := by
      cases hd : a.deterministic
      · rfl
      · exact absurd hd hdet
    by_cases h1 : a.GetNumStates ≤ 1
    · simp [hdet, h1]
    · rw [if_neg (by simp [hdet']), if_neg h1]
      rw [detLoop_tooComplex_iff a (wl * 10) fuel (detInit a)]
      have h0 : (detInit a).effortSpent = 0 := rfl
      rw [h0]
      simp [hdet', lt_of_not_le h1]

/-- The value `Builder.Finish` produces for the worklist automaton of `Wres`
(stated explicitly so the amended C4 theorem can be applied to it). -/
def Wauto : Automaton :=
  { nextTransition := 30, curState := -1,
    states := [0, 2, 6, 1, 9, 1, 12, 1, 15, 1, 18, 1, 21, 1, 24, 1, 27, 1, -1, 0],
    isAccept := [false, false, false, false, false, false, false, false, false, true],
    transitions := [1, 97, 97, 2, 97, 97, 3, 98, 98, 3, 98, 98, 4, 97, 97, 5, 97, 97,
                    6, 97, 97, 7, 97, 97, 8, 97, 97, 9, 97, 97],
    deterministic := false }

theorem determinize_toocomplex_iff_witness :
    determinize Wauto 1 50 = .error .tooComplex :=
  (determinize_toocomplex_iff_effort_reaches_limit Wauto 1 50).mpr
    ⟨rfl, by decide, 9, by decide, by decide, by decide⟩

def GoodKey (k : FrozenIntSet) : Prop := k.hashCode = hashSpec k.values

def SSInv (s : StateSet) : Prop :=
  s.hashUpdated = true → s.hashCode = hashSpec s.keys

def MapInv (m : List (FrozenIntSet × Int)) : Prop :=
  (∀ e ∈ m, GoodKey e.1) ∧
  List.Pairwise (fun e1 e2 => e1.1.hashCode ≠ e2.1.hashCode) m ∧
  mapLookupByHash m (hashSpec [0]) = some 0

theorem hashSpec_perm {l l' : List Int} (h : l.Perm l') : hashSpec l = hashSpec l' := by
  unfold hashSpec
  rw [h.length_eq, (h.map mix32).sum_eq]

theorem assocUpdate_keys (l : List (Int × Int)) (k v : Int) :
    (assocUpdate l k v).map Prod.fst = l.map Prod.fst := by
  unfold assocUpdate
  rw [List.map_map]
  apply List.map_congr_left
  intro e _
  by_cases h : e.1 = k <;> simp [h]

theorem ss_hash_spec {s : StateSet} (h : SSInv s) :
    s.hash.1 = hashSpec s.keys
    ∧ s.hash.2.inner = s.inner
    ∧ s.hash.2.hashUpdated = true
    ∧ s.hash.2.hashCode = hashSpec s.keys := by
  unfold StateSet.hash
  by_cases hu : s.hashUpdated = true
  · simp [hu, h hu]
  · simp [hu]

theorem ssInv_of_parts {s : StateSet} (h : s.hashCode = hashSpec s.keys) : SSInv s :=
  fun _ => h

theorem ssKeys_congr {s s' : StateSet} (h : s'.inner = s.inner) : s'.keys = s.keys := by
  unfold StateSet.keys
  rw [h]

theorem ssIncr_inv {s : StateSet} (h : SSInv s) (k : Int) : SSInv (s.incr k) := by
  unfold StateSet.incr
  cases hf : assocFind s.inner k with
  | none =>
    intro hu
    simp [StateSet.keyChanged] at hu
  | some c =>
    dsimp only
    by_cases hc : c + 1 = 1
    · rw [if_pos hc]
      intro hu
      simp [StateSet.keyChanged] at hu
    · rw [if_neg hc]
      intro hu
      show s.hashCode = hashSpec (List.map Prod.fst (assocUpdate s.inner k (c + 1)))
      rw [assocUpdate_keys, h hu]
      rfl

theorem ssDecr_inv {s : StateSet} (h : SSInv s) (k : Int) : SSInv (s.decr k) := by
  unfold StateSet.decr
  cases hf : assocFind s.inner k with
  | none => exact h
  | some c =>
    dsimp only
    by_cases hc : c = 1
    · rw [if_pos hc]
      intro hu
      simp [StateSet.keyChanged] at hu
    · rw [if_neg hc]
      intro hu
      show s.hashCode = hashSpec (List.map Prod.fst (assocUpdate s.inner k (c - 1)))
      rw [assocUpdate_keys, h hu]
      rfl

theorem freeze_good {s : StateSet} (hu : s.hashUpdated = true) (h : SSInv s) (q : Int) :
    GoodKey (s.freeze q) := by
  show s.hashCode = hashSpec (sortInts s.keys)
  rw [h hu, hashSpec_perm (sortInts_perm s.keys)]

theorem find?_eq_none_of_lookup {m : List (FrozenIntSet × Int)} {h : Nat}
    (hl : mapLookupByHash m h = none) :
    m.find? (fun e => e.1.hashCode == h) = none := by
  unfold mapLookupByHash at hl
  cases hf : m.find? (fun e => e.1.hashCode == h) with
  | none => rfl
  | some e => rw [hf] at hl; exact absurd hl (by simp)

theorem mapLookup_none_hashes {m : List (FrozenIntSet × Int)} {h : Nat}
    (hl : mapLookupByHash m h = none) : ∀ e ∈ m, e.1.hashCode ≠ h := by
  have hf := find?_eq_none_of_lookup hl
  rw [List.find?_eq_none] at hf
  intro e he
  simpa using hf e he

theorem mapLookup_append_left {m m' : List (FrozenIntSet × Int)} {h : Nat} {v : Int}
    (hm : mapLookupByHash m h = some v) :
    mapLookupByHash (m ++ m') h = some v := by
  unfold mapLookupByHash at hm ⊢
  induction m with
  | nil => simp at hm
  | cons e t ih =>
    by_cases he : e.1.hashCode = h
    · rw [List.cons_append]
      rw [@List.find?_cons_of_pos _ (fun e => e.1.hashCode == h) e (t ++ m')
        (by simpa using he)]
      rw [@List.find?_cons_of_pos _ (fun e => e.1.hashCode == h) e t
        (by simpa using he)] at hm
      exact hm
    · rw [List.cons_append]
      rw [@List.find?_cons_of_neg _ (fun e => e.1.hashCode == h) e (t ++ m')
        (by simpa using he)]
      rw [@List.find?_cons_of_neg _ (fun e => e.1.hashCode == h) e t
        (by simpa using he)] at hm
      exact ih hm

theorem mapSet_of_absent {m : List (FrozenIntSet × Int)} {p : FrozenIntSet} {q : Int}
    (h : mapLookupByHash m p.hashCode = none) :
    mapSet m p q = m ++ [(p, q)] := by
  unfold mapSet
  rw [if_neg (by rw [find?_eq_none_of_lookup h]; simp)]

theorem mapInv_insert {m : List (FrozenIntSet × Int)} {p : FrozenIntSet} {q : Int}
    (hinv : MapInv m) (hg : GoodKey p)
    (habs : mapLookupByHash m p.hashCode = none) : MapInv (mapSet m p q) := by
  rw [mapSet_of_absent habs]
  obtain ⟨hgood, hpw, hlk⟩ := hinv
  refine ⟨?_, ?_, ?_⟩
  · intro e he
    rcases List.mem_append.mp he with hm | hm
    · exact hgood e hm
    · simp at hm
      rw [hm]
      exact hg
  · rw [List.pairwise_append]
    refine ⟨hpw, by simp, ?_⟩
    intro e he e' he'
    simp at he'
    rw [he']
    exact fun hc => (mapLookup_none_hashes habs e he) (by rw [hc])
  · exact mapLookup_append_left hlk

def SwInv (sw : SweepSt) : Prop := MapInv sw.newstate ∧ SSInv sw.statesSet

theorem ssInv_hash_snd {s : StateSet} (h : SSInv s) : SSInv s.hash.2 := by
  obtain ⟨_, e2, _, e4⟩ := ss_hash_spec h
  intro _
  show s.hash.2.hashCode = hashSpec s.hash.2.keys
  rw [e4, ssKeys_congr e2]

theorem processInterval_inv {r point : Int} {sw : SweepSt} (h : SwInv sw) :
    SwInv (processInterval r point sw) := by
  obtain ⟨hm, hs⟩ := h
  unfold processInterval
  by_cases hsz : sw.statesSet.size > 0
  · rw [if_pos hsz]
    have hget : mapGet sw.newstate sw.statesSet
        = (mapLookupByHash sw.newstate sw.statesSet.hash.1, sw.statesSet.hash.2) := rfl
    rw [hget]
    obtain ⟨e1, e2, e3, e4⟩ := ss_hash_spec hs
    cases hq : mapLookupByHash sw.newstate sw.statesSet.hash.1 with
    | some q =>
      exact ⟨hm, ssInv_hash_snd hs⟩
    | none =>
      refine ⟨?_, ssInv_hash_snd hs⟩
      show MapInv (mapSet sw.newstate (sw.statesSet.hash.2.freeze _) _)
      apply mapInv_insert hm
      · exact freeze_good e3 (ssInv_hash_snd hs) _
      · show mapLookupByHash sw.newstate (sw.statesSet.hash.2.freeze _).hashCode = none
        have : (sw.statesSet.hash.2.freeze ((sw.b.createState.2 : Int))).hashCode
            = sw.statesSet.hash.1 := by
          show sw.statesSet.hash.2.hashCode = sw.statesSet.hash.1
          rw [e4, e1]
        rw [this]
        exact hq
  · rw [if_neg hsz]
    exact ⟨hm, hs⟩

theorem processEnds_inv (a : Automaton) :
    ∀ (ts : List (Int × Int × Int)) (sw : SweepSt), SwInv sw →
      SwInv (processEnds a ts sw) := by
  intro ts
  induction ts with
  | nil => intro sw h; exact h
  | cons t rest ih =>
    intro sw h
    exact ih _ ⟨h.1, ssDecr_inv h.2 t.1⟩

theorem processStarts_inv (a : Automaton) :
    ∀ (ts : List (Int × Int × Int)) (sw : SweepSt), SwInv sw →
      SwInv (processStarts a ts sw) := by
  intro ts
  induction ts with
  | nil => intro sw h; exact h
  | cons t rest ih =>
    intro sw h
    exact ih _ ⟨h.1, ssIncr_inv h.2 t.1⟩

theorem sweepPoint_inv {a : Automaton} {r : Int} {sw : SweepSt} {pt : PointTransitions}
    (h : SwInv sw) : SwInv (sweepPoint a r sw pt) := by
  unfold sweepPoint
  have h1 := @processInterval_inv r pt.point sw h
  have h2 := processEnds_inv a pt.ends _ h1
  have h3 := processStarts_inv a pt.starts _ h2
  exact ⟨h3.1, h3.2⟩

theorem sweepAll_inv (a : Automaton) (r : Int) :
    ∀ (pts : List PointTransitions) (sw : SweepSt), SwInv sw →
      SwInv (sweepAll a r pts sw) := by
  intro pts
  induction pts with
  | nil => intro sw h; exact h
  | cons pt rest ih =>
    intro sw h
    exact ih _ (sweepPoint_inv h)

theorem detBody_inv {a : Automaton} {st : DetState} {s : FrozenIntSet} {st' : DetState}
    (hm : MapInv st.newstate) (hs : SSInv st.statesSet)
    (h : detBody a st s = .ok st') :
    MapInv st'.newstate ∧ SSInv st'.statesSet := by
  unfold detBody at h
  cases hc : collate a s.values [] with
  | error e => rw [hc, ex_bind_err] at h; exact absurd h (by simp)
  | ok pts =>
    rw [hc, ex_bind_ok] at h
    split at h
    · injection h with h
      rw [← h]
      exact ⟨hm, hs⟩
    · injection h with h
      rw [← h]
      have := sweepAll_inv a s.state (sortBy (fun x y => decide (x.point ≤ y.point)) pts)
        { b := st.b, worklist := st.worklist, newstate := st.newstate,
          statesSet := st.statesSet, accCount := 0, lastPoint := -1 } ⟨hm, hs⟩
      exact ⟨this.1, this.2⟩

theorem detLoop_mapInv (a : Automaton) (lim : Int) :
    ∀ (fuel : Nat) (st : DetState), MapInv st.newstate → SSInv st.statesSet →
      MapInv (detLoop a lim fuel st).2 := by
  intro fuel
  induction fuel with
  | zero => intro st hm _; exact hm
  | succ f ih =>
    rintro ⟨wl, b, ns, ss, eff⟩ hm hs
    cases wl with
    | nil => exact hm
    | cons s rest =>
      by_cases hlim : lim ≤ eff + (s.values.length : Int)
      · simp only [detLoop, if_pos hlim]
        exact hm
      · simp only [detLoop, if_neg hlim]
        cases hb : detBody a ⟨rest, b, ns, ss, eff + (s.values.length : Int)⟩ s with
        | error e => exact hm
        | ok st' =>
          obtain ⟨hm', hs'⟩ :=
            @detBody_inv a ⟨rest, b, ns, ss, eff + (s.values.length : Int)⟩ s st' hm hs hb
          exact ih st' hm' hs'

theorem mapGet_zero {m : List (FrozenIntSet × Int)} {ss : StateSet}
    (hm : MapInv m) (hs : SSInv ss) (hperm : ss.keys.Perm [0]) :
    (mapGet m ss).1 = some 0 := by
  obtain ⟨e1, _, _, _⟩ := ss_hash_spec hs
  show mapLookupByHash m ss.hash.1 = some 0
  rw [e1, hashSpec_perm hperm]
  exact hm.2.2

/-- C10: every `FrozenIntSet` key of the determinizer's subset-to-DFA-state
map carries a cached hash equal to (number of distinct elements) + Σ mix32
(element) in wrapping uint64 arithmetic (`hashSpec`); the pre-seeded initial
key {0} is built with hash `mix32(0)+1`, which is exactly the hash `StateSet`
computes for support {0}; consequently any sweep-derived `StateSet` whose
support is {0} looks up DFA state 0 in the map. -/
theorem determinize_key_hash_invariant :
    ∀ (a : Automaton) (wl : Int) (fuel : Nat),
      ((detInit a).newstate = [(initialFrozenSet, 0)]
        ∧ initialFrozenSet.hashCode = mix32 0 + 1
        ∧ mix32 0 + 1 = hashSpec [0])
      ∧ (∀ e ∈ (detLoop a (wl * 10) fuel (detInit a)).2, GoodKey e.1)
      ∧ (∀ ss : StateSet, SSInv ss → ss.keys.Perm [0] →
          (mapGet (detLoop a (wl * 10) fuel (detInit a)).2 ss).1 = some 0) := by
  intro a wl fuel
  have hns : (detInit a).newstate = [(initialFrozenSet, 0)] := rfl
  have hinit : MapInv (detInit a).newstate := by
    rw [hns]
    refine ⟨?_, ?_, ?_⟩
    · intro e he
      simp at he
      rw [he]
      unfold GoodKey
      decide
    · simp
    · decide
  have hssinv : SSInv (detInit a).statesSet := by
    have hfalse : (detInit a).statesSet.hashUpdated = false := rfl
    intro h
    rw [hfalse] at h
    exact absurd h (by decide)
  have hfinal := detLoop_mapInv a (wl * 10) fuel (detInit a) hinit hssinv
  exact ⟨⟨hns, rfl, by decide⟩, hfinal.1,
    fun ss hs hp => mapGet_zero hfinal hs hp⟩

theorem determinize_key_hash_invariant_witness :
    (mapGet (detLoop newAutomaton (1 * 10) 3 (detInit newAutomaton)).2
      { inner := [(0, 1)], hashUpdated := false, hashCode := 0 }).1 = some 0 :=
  (determinize_key_hash_invariant newAutomaton 1 3).2.2
    { inner := [(0, 1)], hashUpdated := false, hashCode := 0 }
    (by unfold SSInv; decide) (by decide)
